import Mathlib

/-!
Verification development for the gobusybox busybox builder.

The definitions below are a shallow embedding of the two Go source files of
the repository:

* the dispatch stub (`src/pkg/bb/bbmain/cmd/main.go`, package `main`):
  shebang argv normalization in `init`, symlink resolution, and the
  `run`/default-handler dispatch loop;
* the builder (`src/pkg/bb/bb.go`, package `bb`): `checkDuplicate`,
  the mixed-mode check inside `BuildBusybox`, `localModules`,
  `locallyReplacedModules`, `moduleIdentifier`, and the go.mod emission
  section of `dealWithDeps` (via a model of `golang.org/x/mod/modfile`'s
  `AddRequire`/`AddReplace`).

Go maps are modeled as association lists with insertion-ordered iteration
(a deterministic refinement of Go's unspecified map iteration order; where
an iteration order matters to a claim, the order is an explicit input).
Strings are Lean `String`s; the handful of Go stdlib string/path functions
used by the sources (`strings.HasPrefix`, `path.Clean`, `path.Join`,
`filepath.Base`) are modeled below on the character-list representation.
-/

/-- Model of a byte/character-level prefix test; `chListPref p s` is true
when `p` is an initial segment of `s`. -/
def chListPref : List Char → List Char → Bool
  | [], _ => true
  | _ :: _, [] => false
  | p :: ps, s :: ss => p == s && chListPref ps ss

/-- Model of Go `strings.HasPrefix s pre`. -/
def goStartsWith (s pre : String) : Bool :=
  chListPref pre.data s.data

/-- Model of Go `strings.HasSuffix s suf`. -/
def goEndsWith (s suf : String) : Bool :=
  chListPref suf.data.reverse s.data.reverse

/-- Model of Go `strings.Split p "/"` on the character list. -/
def splitOnSlash : List Char → List (List Char)
  | [] => [[]]
  | c :: cs =>
    match splitOnSlash cs with
    | [] => [[]]
    | r :: rs => if c == '/' then [] :: r :: rs else (c :: r) :: rs

/-- Joins path components with single slashes (inverse of `splitOnSlash`
on clean component lists). -/
def joinSlash : List (List Char) → List Char
  | [] => []
  | [c] => c
  | c :: cs => c ++ '/' :: joinSlash cs

/-- Model of Go `path.Clean`: purely lexical cleaning — drop empty and `.`
components, resolve `..` against preceding components, keep leading `..`s
in relative paths, drop them at the root of rooted paths. -/
def pathClean (p : String) : String :=
  if p.data = [] then "." else
  let rooted := goStartsWith p "/"
  let outRev := (splitOnSlash p.data).foldl (fun out c =>
    if c = [] ∨ c = ['.'] then out
    else if c = ['.', '.'] then
      match out with
      | [] => if rooted then [] else [['.', '.']]
      | o :: os => if o = ['.', '.'] then ['.', '.'] :: o :: os else os
    else c :: out) []
  let body := joinSlash outRev.reverse
  if rooted then String.mk ('/' :: body)
  else if body = [] then "." else String.mk body

/-- Model of `path.Join("..", "..", mpath)` as used by `dealWithDeps` when
adding the local replace rule: the first element is nonempty, so Go returns
`path.Clean("../../" ++ mpath)`. -/
def localReplacePath (mpath : String) : String :=
  pathClean ("../../" ++ mpath)

/-- Model of Go `filepath.Base` on Unix: strip trailing slashes, take the
last path component; empty input gives `"."`, all-slash input gives `"/"`. -/
def filepathBase (s : String) : String :=
  if s.data = [] then "." else
  let l := s.data.reverse.dropWhile (fun c => c == '/')
  let b := l.takeWhile (fun c => c != '/')
  if b = [] then "/" else String.mk b.reverse

/-- Model of `isReplacedModuleLocal` from bb.go (applied to the replacement
module's path), and of the inline skip test in `dealWithDeps`: a replacement
path is local when it begins with `./`, `../` or `/`. -/
def isLocalReplacePath (p : String) : Bool :=
  goStartsWith p "./" || goStartsWith p "../" || goStartsWith p "/"

/-- Association-list lookup; the model of a Go map read `m[k]`. -/
def alookup {α : Type} : List (String × α) → String → Option α
  | [], _ => none
  | (k0, v0) :: rest, k => if k0 = k then some v0 else alookup rest k

/-- Association-list update-or-append; the model of a Go map write
`m[k] = v` with insertion-ordered iteration. -/
def upsert {α : Type} : List (String × α) → String → α → List (String × α)
  | [], k, v => [(k, v)]
  | (k0, v0) :: rest, k, v =>
    if k0 = k then (k, v) :: rest else (k0, v0) :: upsert rest k v

/-! ## The dispatch stub (`bbmain/cmd/main.go`) -/

/-- Model of the shebang-normalization step at the top of the stub's
`init`: if argv has more than 2 entries and argv[1] begins with the two
characters `#` and `!`, argv becomes argv[2:]; otherwise it is unchanged. -/
def shebangArgs : List String → List String
  | a0 :: a1 :: a2 :: rest =>
    if goStartsWith a1 "#!" then a2 :: rest else a0 :: a1 :: a2 :: rest
  | args => args

/-- Model of `IsTargetSymlink originalFile target`: the target, made
absolute via `abs` (the model of `AbsSymlink`, which depends on the working
directory), is itself a symlink. `links` models `os.Readlink`: it is
defined exactly on symlinks and returns the link target. -/
def IsTargetSymlink (abs : String → String → String)
    (links : String → Option String) (originalFile target : String) : Bool :=
  (links (abs originalFile target)).isSome

/-- Model of `ResolveUntilLastSymlink`: follow the symlink chain while the
target is itself a symlink, returning the last symlink (not the final
target). The Go loop is unbounded (a link cycle would not terminate), so
the model takes explicit fuel; a non-symlink input is returned unchanged at
any fuel. -/
def ResolveUntilLastSymlink (abs : String → String → String)
    (links : String → Option String) : Nat → String → String
  | 0, p => p
  | Nat.succ fuel, p =>
    match links p with
    | none => p
    | some target =>
      if IsTargetSymlink abs links p target then
        ResolveUntilLastSymlink abs links fuel (abs p target)
      else p

/-- Outcome of the stub's dispatch: the registry entry that `bbmain.Run`
finally invokes together with the `os.Args` it sees, or a fatal exit. -/
inductive DispatchResult where
  | dispatch (name : String) (args : List String)
  | fatalInvalid (args : List String)
  | panicEmpty
deriving DecidableEq

/-- Model of the `run`/`bbmain.Run`/default-handler loop of the stub.
`run` dispatches on `filepath.Base(os.Args[0])`; per the dispatch contract
(bbmain's register.go is not among the sources) a lookup miss falls through
to the default handler `m` registered in `init`, which fatals when argv has
exactly one entry and otherwise shifts argv left by one and calls `run`
again. -/
def bbRun (registered : List String) : List String → DispatchResult
  | [] => .panicEmpty
  | a :: rest =>
    let name := filepathBase a
    if name ∈ registered then .dispatch name (a :: rest)
    else
      match rest with
      | [] => .fatalInvalid [a]
      | b :: rest' => bbRun registered (b :: rest')

/-- The dispatch loop as claim C5 words it: on a miss the default handler
shifts argv left and uses the full new argv[0] (not its basename) as the
dispatch name. Stated only to be compared against `bbRun`. -/
def bbRunSpecC5 (registered : List String) : List String → DispatchResult
  | [] => .panicEmpty
  | a :: rest =>
    let name := filepathBase a
    if name ∈ registered then .dispatch name (a :: rest)
    else
      match rest with
      | [] => .fatalInvalid [a]
      | b :: rest' => .dispatch b (b :: rest')

/-- Model of the whole stub start-up: `init` normalizes shebang argv, then
`main` resolves argv[0] through symlinks and calls `run`. -/
def stubStart (abs : String → String → String) (links : String → Option String)
    (fuel : Nat) (registered : List String) (args : List String) : DispatchResult :=
  match shebangArgs args with
  | [] => .panicEmpty
  | a :: rest => bbRun registered (ResolveUntilLastSymlink abs links fuel a :: rest)

/-! ## The dispatch registry (bbmain) and the generated registrations -/

/-- Tag identifying the init chain stored in a registry entry. -/
inductive InitTag where
  | noop
  | cmdChain (cmd : String)
deriving DecidableEq

/-- Tag identifying the entry function stored in a registry entry. -/
inductive EntryTag where
  | listCmds
  | cmdMain (cmd : String)
  | defaultHandler
deriving DecidableEq

/-- One registered command: its init chain and its entry function. -/
structure CmdFuncs where
  initChain : InitTag
  entry : EntryTag
deriving DecidableEq

/-- Modelled from the spec: the dispatch registry implementation
(bbmain/register.go) is not among the sources; per the dispatch contract it
holds a table keyed by command name plus an optional default handler, with
operations `Register(name, initChain, entry)`, `RegisterDefault(initChain,
entry)` and `Run(name)` where a lookup miss falls through to the default. -/
structure Registry where
  cmds : List (String × CmdFuncs)
  dflt : Option CmdFuncs
deriving DecidableEq

/-- Modelled from the spec: `bbmain.Register` adds a table entry. -/
def Register (r : Registry) (name : String) (f : CmdFuncs) : Registry :=
  { r with cmds := upsert r.cmds name f }

/-- Modelled from the spec: `bbmain.RegisterDefault` sets the default. -/
def RegisterDefault (r : Registry) (f : CmdFuncs) : Registry :=
  { r with dflt := some f }

/-- Modelled from the spec: `bbmain.Run name` looks the name up in the
table and falls through to the default handler on a miss. -/
def RunLookup (r : Registry) (name : String) : Option CmdFuncs :=
  match alookup r.cmds name with
  | some f => some f
  | none => r.dflt

/-- Model of the stub's `init` registrations (`bbmain/cmd/main.go`): it
unconditionally registers `bbdiagnose` with entry `bbmain.ListCmds` and
registers the shift-and-retry closure `m` as the default handler. -/
def stubInit (r : Registry) : Registry :=
  RegisterDefault (Register r "bbdiagnose" ⟨.noop, .listCmds⟩)
    ⟨.noop, .defaultHandler⟩

/-- Modelled from the spec: each rewritten command's synthesized `init`
calls `R.Register(name, init_chain, registeredMain)` (the rewriter itself
is not among the sources). -/
def commandInit (c : String) (r : Registry) : Registry :=
  Register r c ⟨.cmdChain c, .cmdMain c⟩

/-- Registry state after all package `init`s have run: command package
inits run first (they are imports of the main package), then the stub's
own `init`. -/
def programInit (cmdNames : List String) : Registry :=
  stubInit (cmdNames.foldl (fun r c => commandInit c r) ⟨[], none⟩)

/-! ## Builder data model (`bb.go`) -/

/-- One `replace` directive of a go.mod file, as modeled from
`modfile.Replace`: `oldPath [oldVers] => newPath [newVers]`. -/
structure ModReplace where
  oldPath : String
  oldVers : String
  newPath : String
  newVers : String
deriving DecidableEq

/-- Model of `golang.org/x/tools/go/packages.Module` restricted to the
fields bb.go reads: path, version, on-disk root `Dir`, manifest path
`GoMod`, the path of `Replace` when a replacement is set, and — standing in
for reading and parsing the manifest at `GoMod` — that manifest's replace
directives (`gomodReplaces`). -/
structure GoModule where
  path : String
  version : String
  dir : String
  goMod : String
  replacePath : Option String
  gomodReplaces : List ModReplace
deriving DecidableEq

/-- Model of `packages.Package` restricted to the fields bb.go reads. -/
structure GoPackage where
  pkgPath : String
  module : Option GoModule
deriving DecidableEq

/-- Model of `bbinternal.Package`: a loaded command. `visitOrder` models
the sequence in which `packages.Visit` presents the transitive import
graph of the command (each package once, the root included). -/
structure Cmd where
  name : String
  pkgPath : String
  pkg : GoPackage
  visitOrder : List GoPackage
deriving DecidableEq

/-- Provenance recorded for a local module, mirroring the two format
strings in `localModules`: a direct compilation request, or a local replace
found in some module's go.mod. -/
inductive Provenance where
  | request (modPath dir : String)
  | fromGoMod (modPath goModFile : String)
deriving DecidableEq

/-- Errors returned by the modeled builder paths; each constructor carries
the data interpolated into the corresponding `fmt.Errorf` format string. -/
inductive BBErr where
  | noOpts
  | invalidEnv
  | readGenSrcDirFailed
  | genSrcDirNotEmpty
  | generateRequiresDir
  | findingPackagesFailed
  | noValidCommands
  | duplicateCommand (name p1 p2 : String)
  | mixedMode (modulePaths : List String)
  | conflictingVersions (modPath : String) (origin1 : Provenance) (origin2 : String)
  | conflictingModuleDeps
deriving DecidableEq

/-- Inner loop of `checkDuplicate`: `seen` maps each command name already
processed to its package path. -/
def checkDup (seen : List (String × String)) : List Cmd → Except BBErr Unit
  | [] => .ok ()
  | c :: cs =>
    match alookup seen c.name with
    | some p => .error (.duplicateCommand c.name p c.pkgPath)
    | none => checkDup ((c.name, c.pkgPath) :: seen) cs

/-- Model of `checkDuplicate` (bb.go): scan the commands in order, failing
on the first whose name was already seen, with an error carrying the name
and both package paths. -/
def checkDuplicate (cmds : List Cmd) : Except BBErr Unit :=
  checkDup [] cmds

/-- Set insertion for a deduplicated, insertion-ordered string list; the
model of a Go map write `m[k] = struct{}{}`. -/
def insertUniq (acc : List String) (p : String) : List String :=
  if p ∈ acc then acc else acc ++ [p]

/-- One step of the `modules` map construction in `BuildBusybox`: record
the command's main-module path when it has one. -/
def mainModulePathsStep (acc : List String) (c : Cmd) : List String :=
  match c.pkg.module with
  | some m => insertUniq acc m.path
  | none => acc

/-- The deduplicated, insertion-ordered list of main-module paths of the
commands; models the `modules` map built in `BuildBusybox`. -/
def mainModulePaths (cmds : List Cmd) : List String :=
  cmds.foldl mainModulePathsStep []

/-- Model of the mixed-mode check inlined in `BuildBusybox`: count the
commands without a module; if mixed mode is not allowed and there is at
least one module-bearing and one module-less command, fail with an error
carrying the main module paths. -/
def mixedModeCheck (allowMixedMode : Bool) (cmds : List Cmd) : Except BBErr Unit :=
  let modules := mainModulePaths cmds
  let numNoModule := (cmds.filter (fun c => c.pkg.module.isNone)).length
  if ¬ allowMixedMode ∧ modules ≠ [] ∧ numNoModule > 0 then
    .error (.mixedMode modules)
  else .ok ()

/-! ## BuildBusybox control flow up to command validation -/

/-- Filesystem effects of the modeled `BuildBusybox` steps. Directory
creations and temporary-directory creation are distinguished from effects
that write file contents. -/
inductive FSEffect where
  | mkdirAll (dir : String)
  | tempDirCreate
  | writeFile (file : String)
  | copyFile (src dst : String)
deriving DecidableEq

/-- State of the caller-supplied generated-source directory, as observed by
the `ioutil.ReadDir` call in `BuildBusybox`. -/
inductive DirState where
  | missing
  | readError
  | nonEmpty
  | empty
deriving DecidableEq

/-- Inputs of the modeled `BuildBusybox` call: the options fields its
control flow reads, the observed state of `GenSrcDir`, and the result of
the external package loader `findpkg.NewPackages`. -/
structure BuildInput where
  optsGiven : Bool
  envValid : Bool
  genSrcDir : String
  generateOnly : Bool
  dirState : DirState
  allowMixedMode : Bool
  loadResult : Except String (List Cmd)

/-- Effects and outcome of the `GenSrcDir` handling block of
`BuildBusybox`: a supplied directory is created when missing and refused
when unreadable or non-empty; with no directory supplied, generate-only
mode is refused and otherwise a temporary directory is created. -/
def genSrcDirStep (inp : BuildInput) : Except BBErr (List FSEffect) :=
  if inp.genSrcDir ≠ "" then
    match inp.dirState with
    | .missing => .ok [.mkdirAll inp.genSrcDir]
    | .readError => .error .readGenSrcDirFailed
    | .nonEmpty => .error .genSrcDirNotEmpty
    | .empty => .ok []
  else if inp.generateOnly then .error .generateRequiresDir
  else .ok [.tempDirCreate]

/-- Model of `BuildBusybox` (bb.go) through command validation. The steps
after the mixed-mode check — rewriting each command, `dealWithDeps`,
`writeBBMain` and compilation, whose file writes and external invocations
happen only once validation has passed — are abstracted by the
continuation `cont`, which receives the loaded commands and contributes
its own effects and outcome. The trace lists effects in program order. -/
def BuildBusybox (inp : BuildInput)
    (cont : List Cmd → List FSEffect × Option BBErr) :
    List FSEffect × Option BBErr :=
  if ¬ inp.optsGiven then ([], some .noOpts)
  else if ¬ inp.envValid then ([], some .invalidEnv)
  else
    match genSrcDirStep inp with
    | .error e => ([], some e)
    | .ok tr0 =>
      let tr1 := tr0 ++ [.mkdirAll "src/bb.u-root.com/bb"]
      match inp.loadResult with
      | .error _ => (tr1, some .findingPackagesFailed)
      | .ok cmds =>
        if cmds = [] then (tr1, some .noValidCommands)
        else
          match checkDuplicate cmds with
          | .error e => (tr1, some e)
          | .ok _ =>
            match mixedModeCheck inp.allowMixedMode cmds with
            | .error e => (tr1, some e)
            | .ok _ =>
              let rest := cont cmds
              (tr1 ++ rest.1, rest.2)

/-! ## The modfile model and the go.mod emission of dealWithDeps -/

/-- Formatted content of the synthetic go.mod: the module statement and the
`require` and `replace` lines in the order `modfile.Format` prints them
(call order, with in-place updates). -/
structure ModFileState where
  moduleStmt : String
  requires : List (String × String)
  replaces : List ModReplace
deriving DecidableEq

/-- Model of `modfile.File.AddRequire`: update the first existing line for
the path (removing any later duplicates), else append a new line. -/
def addRequire : List (String × String) → String → String → List (String × String)
  | [], p, v => [(p, v)]
  | r :: rs, p, v =>
    if r.1 = p then (p, v) :: rs.filter (fun x => x.1 != p)
    else r :: addRequire rs p v

/-- Match condition of `modfile.File.AddReplace`: an existing line for the
same replaced path whose old version matches (an empty requested old
version matches any line for the path). -/
def replMatch (r n : ModReplace) : Bool :=
  r.oldPath == n.oldPath && (n.oldVers == "" || r.oldVers == n.oldVers)

/-- Update branch of `AddReplace`: rewrite the first matching line to the
new directive and remove every later matching line. -/
def updFirst : List ModReplace → ModReplace → List ModReplace
  | [], _ => []
  | r :: rs, n =>
    if replMatch r n then n :: rs.filter (fun x => !replMatch x n)
    else r :: updFirst rs n

/-- Append branch of `AddReplace`: a new line is placed after the last
existing line for the same replaced path (the `hint`), or at the end. -/
def insertAfterSamePath : List ModReplace → ModReplace → List ModReplace
  | [], n => [n]
  | r :: rs, n =>
    if rs.any (fun x => x.oldPath == n.oldPath) then r :: insertAfterSamePath rs n
    else if r.oldPath == n.oldPath then r :: n :: rs
    else r :: insertAfterSamePath rs n

/-- Model of `modfile.File.AddReplace` (x/mod): if a line for the replaced
path matches, it is updated in place — a later writer overwrites an
earlier one — otherwise a new line is inserted. -/
def addReplace (rs : List ModReplace) (n : ModReplace) : List ModReplace :=
  if rs.any (fun r => replMatch r n) then updFirst rs n
  else insertAfterSamePath rs n

/-- The version `dealWithDeps` passes to `AddRequire`: the module's version
when known, else the synthetic placeholder `v0.0.0`. -/
def requireVersion (m : GoModule) : String :=
  if m.version = "" then "v0.0.0" else m.version

/-- The replace directives of a local module's own manifest that
`dealWithDeps` copies: those whose right-hand side is not a local path,
provided the module has a manifest at all. -/
def copiedReplaces (m : GoModule) : List ModReplace :=
  if m.goMod = "" then []
  else m.gomodReplaces.filter (fun r => !isLocalReplacePath r.newPath)

/-- Per-module body of the emission loop in `dealWithDeps`: add the
require line (with version fallback), the local replace rule pointing into
the generated tree, and every copied non-local replace directive of the
module's own manifest. -/
def addModuleDirectives (st : ModFileState) (mpath : String) (m : GoModule) :
    ModFileState :=
  let st1 := { st with requires := addRequire st.requires mpath (requireVersion m) }
  let st2 := { st1 with
    replaces := addReplace st1.replaces ⟨mpath, "", localReplacePath mpath, ""⟩ }
  (copiedReplaces m).foldl
    (fun s r => { s with replaces := addReplace s.replaces r }) st2

/-- Model of the go.mod emission section of `dealWithDeps`: starting from
the module statement for `bb.u-root.com/bb`, process the local modules in
the order the `localModules` map iteration presents them (the order is an
explicit input; the source iterates the Go map directly, without
sorting). -/
def dealWithDepsGoMod (mods : List (String × GoModule)) : ModFileState :=
  mods.foldl (fun st pm => addModuleDirectives st pm.1 pm.2)
    ⟨"bb.u-root.com/bb", [], []⟩

/-! ## localModules (conflict detection) -/

/-- A local module together with the provenance string recorded for it. -/
structure LocalModEntry where
  m : GoModule
  provenance : Provenance
deriving DecidableEq

/-- Model of `locallyReplacedModules`: for a command whose package has a
module, collect (into a map keyed by module path) every module of the
visited import graph that carries a local replacement. -/
def locallyReplacedModules (p : Cmd) : List (String × GoModule) :=
  match p.pkg.module with
  | none => []
  | some _ =>
    p.visitOrder.foldl (fun m pkg =>
      match pkg.module with
      | some pm =>
        match pm.replacePath with
        | some rp => if isLocalReplacePath rp then upsert m pm.path pm else m
        | none => m
      | none => m) []

/-- First loop of `localModules`: record each command's own module (first
occurrence of a path wins) with a compilation-request provenance. The
`copyGoMod` file effects are not modeled here; no claim concerns them. -/
def findTopLevelModules (mainPkgs : List Cmd) : List (String × LocalModEntry) :=
  mainPkgs.foldl (fun lm p =>
    match p.pkg.module with
    | some m =>
      if (alookup lm m.path).isSome then lm
      else lm ++ [(m.path, ⟨m, .request m.path m.dir⟩)]
    | none => lm) []

/-- Inner second loop of `localModules` for one command (whose module path
and manifest path are `pModPath` and `pGoModFile`): each locally replaced
module either conflicts with an existing entry for its path (different
on-disk root → error carrying the path and both origins) or is recorded
with a go.mod provenance. -/
def mergeReplacedModules (pModPath pGoModFile : String) :
    List (String × LocalModEntry) → List (String × GoModule) →
    Except BBErr (List (String × LocalModEntry))
  | lm, [] => .ok lm
  | lm, (modPath, module) :: rest =>
    match alookup lm modPath with
    | some original =>
      if original.m.dir ≠ module.dir then
        .error (.conflictingVersions modPath original.provenance pModPath)
      else mergeReplacedModules pModPath pGoModFile lm rest
    | none =>
      mergeReplacedModules pModPath pGoModFile
        (lm ++ [(modPath, ⟨module, .fromGoMod pModPath pGoModFile⟩)]) rest

/-- Second loop of `localModules` over all commands. A command without a
module contributes nothing (`locallyReplacedModules` is empty for it, so
the body that reads `p.Pkg.Module` is never reached). -/
def collectReplacedModules :
    List (String × LocalModEntry) → List Cmd →
    Except BBErr (List (String × LocalModEntry))
  | lm, [] => .ok lm
  | lm, p :: ps =>
    match p.pkg.module with
    | none => collectReplacedModules lm ps
    | some pm =>
      match mergeReplacedModules pm.path pm.goMod lm (locallyReplacedModules p) with
      | .error e => .error e
      | .ok lm2 => collectReplacedModules lm2 ps

/-- Structured form of `moduleIdentifier` (bb.go): a locally replaced
module is identified by its replacement directory, any other by its
version string. -/
inductive ModuleId where
  | directory (path : String)
  | version (v : String)
deriving DecidableEq

/-- Model of `moduleIdentifier`. -/
def moduleIdentifier (m : GoModule) : ModuleId :=
  match m.replacePath with
  | some rp => if isLocalReplacePath rp then .directory rp else .version m.version
  | none => .version m.version

/-- Diagnostic lines logged by the remote-vs-local conflict scan of
`localModules`, carrying the data interpolated into each `log.Printf`. -/
inductive LogEntry where
  | conflictHeader (modPath : String)
  | moduleUse (userModPath : String) (id : ModuleId)
  | provenanceUse (prov : Provenance) (id : ModuleId)
  | suggestion (modPath replaceDir goModFile : String)
deriving DecidableEq

/-- The main module path of a command; mirrors the `mainPkg.Pkg.Module.Path`
reads in the conflict scan (which Go only reaches for module-bearing
commands; the empty string stands in for the module-less corner that would
nil-panic in Go, and no theorem relies on it). -/
def mainModulePath (p : Cmd) : String :=
  match p.pkg.module with
  | some m => m.path
  | none => ""

/-- The on-disk root of a command's main module (cf. `mainModulePath`). -/
def mainModuleDir (p : Cmd) : String :=
  match p.pkg.module with
  | some m => m.dir
  | none => ""

/-- The manifest path of a command's main module (cf. `mainModulePath`). -/
def mainModuleGoMod (p : Cmd) : String :=
  match p.pkg.module with
  | some m => m.goMod
  | none => ""

/-- Third phase of `localModules`: visit every command's import graph and,
for each visited package whose module path has a local entry with a
different on-disk root, log the conflict — including the `add replace
<path> => <dir> to <go.mod>` suggestion — and set the conflict flag.
`rel` models `filepath.Rel` (with its error fallback to the absolute
directory folded in). -/
def findRemoteLocalConflicts (rel : String → String → String)
    (lm : List (String × LocalModEntry)) (mainPkgs : List Cmd) :
    List LogEntry × Bool :=
  mainPkgs.foldl (fun acc mainPkg =>
    mainPkg.visitOrder.foldl (fun acc2 p =>
      match p.module with
      | none => acc2
      | some pm =>
        match alookup lm pm.path with
        | some l =>
          if l.m.dir ≠ pm.dir then
            (acc2.1 ++
              [.conflictHeader pm.path,
               .moduleUse (mainModulePath mainPkg) (moduleIdentifier pm),
               .provenanceUse l.provenance (moduleIdentifier l.m),
               .suggestion pm.path (rel (mainModuleDir mainPkg) l.m.dir)
                 (mainModuleGoMod mainPkg)],
             true)
          else acc2
        | none => acc2) acc) ([], false)

/-- Model of `localModules` (bb.go): record top-level modules, merge in
locally replaced modules (erroring on conflicting local definitions), then
scan for remote-vs-local conflicts (erroring after logging suggestions),
and finally strip provenances. Returns the logged diagnostics together
with the result. -/
def localModules (rel : String → String → String) (mainPkgs : List Cmd) :
    List LogEntry × Except BBErr (List (String × GoModule)) :=
  let lm1 := findTopLevelModules mainPkgs
  match collectReplacedModules lm1 mainPkgs with
  | .error e => ([], .error e)
  | .ok lm2 =>
    let scan := findRemoteLocalConflicts rel lm2 mainPkgs
    if scan.2 then (scan.1, .error .conflictingModuleDeps)
    else (scan.1, .ok (lm2.map (fun kv => (kv.1, kv.2.m))))

/-! ## Auxiliary propositions and concrete instances -/

deriving instance DecidableEq for Except

/-- Two positionally distinct commands of `cmds` named `n`, the earlier at
package path `p1` and the later at `p2`. -/
def DupPair (cmds : List Cmd) (n p1 p2 : String) : Prop :=
  ∃ pre mid post c1 c2, cmds = pre ++ c1 :: mid ++ c2 :: post ∧
    c1.name = n ∧ c2.name = n ∧ c1.pkgPath = p1 ∧ c2.pkgPath = p2

/-- The modules of a package list, in order. -/
def packageModules (l : List GoPackage) : List GoModule :=
  l.foldr (fun q acc => match q.module with | some m => m :: acc | none => acc) []

/-- Every module record the input presents to `localModules`: the commands'
own main modules and every module of their visited import graphs. -/
def allInputModules (mainPkgs : List Cmd) : List GoModule :=
  mainPkgs.foldr (fun p acc =>
    (match p.pkg.module with | some m => [m] | none => []) ++
      packageModules p.visitOrder ++ acc) []

/-- All same-path module records of the input agree on their on-disk root
directory. -/
def DirConsistent (mainPkgs : List Cmd) : Prop :=
  ∀ m1 m2, m1 ∈ allInputModules mainPkgs → m2 ∈ allInputModules mainPkgs →
    m1.path = m2.path → m1.dir = m2.dir

/-- Example module without replaces, version known. -/
def exModA : GoModule := ⟨"a.example.com/a", "v1.0.0", "/home/a", "/home/a/go.mod", none, []⟩

/-- Example module without replaces, version unknown. -/
def exModB : GoModule := ⟨"b.example.com/b", "", "/home/b", "/home/b/go.mod", none, []⟩

/-- Example module whose path carries a major-version suffix and whose
version is unknown. -/
def exModV2 : GoModule := ⟨"example.com/m/v2", "", "/home/m", "/home/m/go.mod", none, []⟩

/-- Example module whose manifest replaces `x.example.com/x` by one
mirror. -/
def exModC : GoModule := ⟨"c.example.com/c", "v1.0.0", "/home/c", "/home/c/go.mod", none,
  [⟨"x.example.com/x", "", "a.mirror.com/a", "v1.0.0"⟩]⟩

/-- Example module whose manifest replaces `x.example.com/x` by another
mirror. -/
def exModD : GoModule := ⟨"d.example.com/d", "v1.0.0", "/home/d", "/home/d/go.mod", none,
  [⟨"x.example.com/x", "", "b.mirror.com/b", "v2.0.0"⟩]⟩

/-- Vendored copy of `example.com/m2` as command A's manifest locally
replaces it. -/
def exM2x : GoModule := ⟨"example.com/m2", "", "/work/a/vendor/m2", "/work/a/vendor/m2/go.mod",
  some "./vendor/m2", []⟩

/-- Example main module whose own manifest locally replaces
`example.com/m2` (a local-RHS directive targeting a local module path). -/
def exModALoc : GoModule := ⟨"example.com/a", "v1.0.0", "/work/a", "/work/a/go.mod", none,
  [⟨"example.com/m2", "", "./vendor/m2", ""⟩]⟩

/-- Vendored copy of `example.com/m2` as command B's manifest locally
replaces it, at a different root. -/
def exM2y : GoModule := ⟨"example.com/m2", "", "/work/b/other/m2", "/work/b/other/m2/go.mod",
  some "./other/m2", []⟩

/-- Remotely resolved copy of `example.com/m2` (module cache root). -/
def exM2remote : GoModule :=
  ⟨"example.com/m2", "v1.2.3", "/cache/m2", "/cache/m2/go.mod", none, []⟩

/-- Main module of example command A. -/
def exModMA : GoModule := ⟨"example.com/a", "", "/work/a", "/work/a/go.mod", none, []⟩

/-- Main module of example command B. -/
def exModMB : GoModule := ⟨"example.com/b", "", "/work/b", "/work/b/go.mod", none, []⟩

/-- Example command in module `example.com/a` whose graph reaches the
vendored `example.com/m2`. -/
def exCmdA : Cmd := ⟨"acmd", "example.com/a/cmd/acmd", ⟨"example.com/a/cmd/acmd", some exModMA⟩,
  [⟨"example.com/a/cmd/acmd", some exModMA⟩, ⟨"example.com/m2/pkg/x", some exM2x⟩]⟩

/-- Example command in module `example.com/b` whose graph reaches a
different vendored `example.com/m2`. -/
def exCmdB : Cmd := ⟨"bcmd", "example.com/b/cmd/bcmd", ⟨"example.com/b/cmd/bcmd", some exModMB⟩,
  [⟨"example.com/b/cmd/bcmd", some exModMB⟩, ⟨"example.com/m2/pkg/x", some exM2y⟩]⟩

/-- Example command in module `example.com/b` whose graph resolves
`example.com/m2` remotely. -/
def exCmdC : Cmd := ⟨"ccmd", "example.com/b/cmd/ccmd", ⟨"example.com/b/cmd/ccmd", some exModMB⟩,
  [⟨"example.com/b/cmd/ccmd", some exModMB⟩, ⟨"example.com/m2/pkg/x", some exM2remote⟩]⟩

/-- Example duplicate-named command pair. -/
def exCmdLs1 : Cmd := ⟨"ls", "example.com/foo/ls", ⟨"example.com/foo/ls", none⟩, []⟩

/-- Second example command named `ls`, at a different package path. -/
def exCmdLs2 : Cmd := ⟨"ls", "example.com/bar/ls", ⟨"example.com/bar/ls", none⟩, []⟩

/-- Example module-less command. -/
def exCmdNoMod : Cmd := ⟨"hello", "example.com/x/hello", ⟨"example.com/x/hello", none⟩, []⟩

/-- Concrete stand-in for `filepath.Rel` used in closed instances. -/
def exRel : String → String → String := fun _ d => d

/-! ## Lemmas about the registry and map models -/

theorem alookup_upsert_self {α : Type} : ∀ (l : List (String × α)) (k : String) (v : α),
    alookup (upsert l k v) k = some v
  | [], k, v => by simp [upsert, alookup]
  | (k0, v0) :: rest, k, v => by
    by_cases hk : k0 = k
    · simp [upsert, hk, alookup]
    · simp [upsert, hk, alookup]
      exact alookup_upsert_self rest k v

theorem alookup_upsert_ne {α : Type} : ∀ (l : List (String × α)) (k k' : String) (v : α),
    k' ≠ k → alookup (upsert l k v) k' = alookup l k'
  | [], k, k', v, h => by simp [upsert, alookup, Ne.symm h]
  | (k0, v0) :: rest, k, k', v, h => by
    by_cases hk : k0 = k
    · subst hk
      simp [upsert, alookup, Ne.symm h]
    · simp only [upsert, if_neg hk, alookup]
      by_cases hk' : k0 = k'
      · simp [hk']
      · simp [hk']
        exact alookup_upsert_ne rest k k' v h

theorem commandFold_lookup : ∀ (names : List String) (r : Registry) (c : String),
    (c ∈ names ∨ alookup r.cmds c = some ⟨.cmdChain c, .cmdMain c⟩) →
    alookup ((names.foldl (fun r c => commandInit c r) r).cmds) c =
      some ⟨.cmdChain c, .cmdMain c⟩
  | [], r, c, h => by
    cases h with
    | inl h => cases h
    | inr h => exact h
  | n :: ns, r, c, h => by
    simp only [List.foldl_cons]
    apply commandFold_lookup ns
    by_cases hc : c = n
    · right
      subst hc
      simpa [commandInit, Register] using alookup_upsert_self r.cmds c _
    · cases h with
      | inl h =>
        cases h with
        | head => exact absurd rfl hc
        | tail _ h => exact Or.inl h
      | inr h =>
        right
        simpa [commandInit, Register, alookup_upsert_ne r.cmds n c _ hc] using h

/-! ## Registry claims -/

/-- C10: for every command list, the registry after all inits contains the
unconditional `bbdiagnose` entry (entry function: the command listing), the
commands' own entries, and a default handler that `Run` falls through to on
a lookup miss. -/
theorem claim_c10 (cmdNames : List String) :
    alookup (programInit cmdNames).cmds "bbdiagnose" = some ⟨.noop, .listCmds⟩ ∧
    (programInit cmdNames).dflt = some ⟨.noop, .defaultHandler⟩ ∧
    (∀ c ∈ cmdNames, c ≠ "bbdiagnose" →
      alookup (programInit cmdNames).cmds c = some ⟨.cmdChain c, .cmdMain c⟩) ∧
    (∀ n, alookup (programInit cmdNames).cmds n = none →
      RunLookup (programInit cmdNames) n = some ⟨.noop, .defaultHandler⟩) := by
  refine ⟨?_, ?_, ?_, ?_⟩
  · simpa [programInit, stubInit, RegisterDefault, Register] using
      alookup_upsert_self (cmdNames.foldl (fun r c => commandInit c r) ⟨[], none⟩).cmds
        "bbdiagnose" _
  · simp [programInit, stubInit, RegisterDefault, Register]
  · intro c hc hne
    have h1 := commandFold_lookup cmdNames ⟨[], none⟩ c (Or.inl hc)
    simpa [programInit, stubInit, RegisterDefault, Register,
      alookup_upsert_ne _ "bbdiagnose" c _ hne] using h1
  · intro n h
    simp only [RunLookup, h]
    simp [programInit, stubInit, RegisterDefault]

/-- Witness for C10: a concrete one-command program registers the command,
`bbdiagnose`, and the default handler. -/
theorem claim_c10_witness :
    ("ls" ∈ ["ls"] ∧ "ls" ≠ "bbdiagnose") ∧
    alookup (programInit ["ls"]).cmds "ls" = some ⟨.cmdChain "ls", .cmdMain "ls"⟩ :=
  ⟨⟨by decide, by decide⟩, (claim_c10 ["ls"]).2.2.1 "ls" (by decide) (by decide)⟩

/-! ## Stub argv claims -/

/-- C4: an argv with at least three entries whose second begins with the
two characters `#` and `!` is normalized by dropping its first two entries;
on the concrete input `[/bbin/bb, #!ls, /tmp/ls, -la]` (with `/tmp/ls` not
a symlink) dispatch receives name `ls` and argv `[/tmp/ls, -la]`; any argv
with fewer than three entries, or whose second entry lacks the marker, is
left unchanged. -/
theorem claim_c4 :
    (∀ (a0 a1 a2 : String) (rest : List String), goStartsWith a1 "#!" = true →
      shebangArgs (a0 :: a1 :: a2 :: rest) = a2 :: rest) ∧
    (∀ args : List String, args.length < 3 → shebangArgs args = args) ∧
    (∀ (a0 a1 a2 : String) (rest : List String), goStartsWith a1 "#!" = false →
      shebangArgs (a0 :: a1 :: a2 :: rest) = a0 :: a1 :: a2 :: rest) ∧
    stubStart (fun p _ => p) (fun _ => none) 1 ["ls"] ["/bbin/bb", "#!ls", "/tmp/ls", "-la"]
      = .dispatch "ls" ["/tmp/ls", "-la"] := by
  refine ⟨?_, ?_, ?_, by decide⟩
  · intro a0 a1 a2 rest h
    simp [shebangArgs, h]
  · intro args h
    match args with
    | [] => rfl
    | [a] => rfl
    | [a, b] => rfl
    | a :: b :: c :: rest => simp [List.length_cons] at h; omega
  · intro a0 a1 a2 rest h
    simp [shebangArgs, h]

/-- Witness for C4 at a concrete shebang argv. -/
theorem claim_c4_witness :
    goStartsWith "#!ls" "#!" = true ∧
    shebangArgs ["/bbin/bb", "#!ls", "/tmp/ls", "-la"] = ["/tmp/ls", "-la"] :=
  ⟨by decide, claim_c4.1 "/bbin/bb" "#!ls" "/tmp/ls" ["-la"] (by decide)⟩

/-- C5 counterexample: on argv `[bar, /x/foo]` with only `foo` registered,
the stub dispatches on the basename of the shifted argv[0] (name `foo`),
not on the full entry `/x/foo` the claim predicts. -/
theorem claim_c5_counterexample :
    bbRun ["foo"] ["bar", "/x/foo"] = .dispatch "foo" ["/x/foo"] ∧
    bbRunSpecC5 ["foo"] ["bar", "/x/foo"] = .dispatch "/x/foo" ["/x/foo"] ∧
    bbRun ["foo"] ["bar", "/x/foo"] ≠ bbRunSpecC5 ["foo"] ["bar", "/x/foo"] :=
  ⟨by decide, by decide, by decide⟩

/-- C5 (amended): the stub dispatches on the basename of argv[0]; when that
basename is unregistered and argv has at least two entries, the default
handler shifts argv left by one and the dispatch loop re-applies
`filepath.Base` to the new argv[0]. -/
theorem claim_c5_amended (registered : List String) (a b : String) (rest : List String) :
    (filepathBase a ∈ registered →
      bbRun registered (a :: b :: rest) = .dispatch (filepathBase a) (a :: b :: rest)) ∧
    (filepathBase a ∉ registered →
      bbRun registered (a :: b :: rest) = bbRun registered (b :: rest)) := by
  constructor
  · intro h
    simp [bbRun, h]
  · intro h
    simp [bbRun, h]

/-- Witness for C5 (amended) at a concrete argv. -/
theorem claim_c5_witness :
    filepathBase "/bbin/ls" ∈ ["ls"] ∧
    bbRun ["ls"] ["/bbin/ls", "-la"] = .dispatch (filepathBase "/bbin/ls") ["/bbin/ls", "-la"] :=
  ⟨by decide, (claim_c5_amended ["ls"] "/bbin/ls" "-la" []).1 (by decide)⟩

/-! ## Mixed-mode check (C9) -/

theorem insertUniq_mem (acc : List String) (p q : String) :
    q ∈ insertUniq acc p ↔ q ∈ acc ∨ q = p := by
  unfold insertUniq
  by_cases h : p ∈ acc
  · simp only [if_pos h]
    constructor
    · exact Or.inl
    · rintro (hq | rfl)
      · exact hq
      · exact h
  · simp [if_neg h, List.mem_append]

theorem mainModulePaths_fold_mem : ∀ (cmds : List Cmd) (acc : List String) (q : String),
    q ∈ cmds.foldl mainModulePathsStep acc ↔
      q ∈ acc ∨ ∃ c ∈ cmds, ∃ m, c.pkg.module = some m ∧ m.path = q
  | [], acc, q => by simp
  | c :: cs, acc, q => by
    rw [List.foldl_cons, mainModulePaths_fold_mem cs]
    cases hc : c.pkg.module with
    | none => simp [mainModulePathsStep, hc]
    | some m =>
      simp only [mainModulePathsStep, hc, insertUniq_mem, List.mem_cons]
      constructor
      · rintro ((hq | rfl) | hcs)
        · exact Or.inl hq
        · exact Or.inr ⟨c, Or.inl rfl, m, hc, rfl⟩
        · obtain ⟨c', hc', hm⟩ := hcs
          exact Or.inr ⟨c', Or.inr hc', hm⟩
      · rintro (hq | ⟨c', hc' | hc', m', hm', rfl⟩)
        · exact Or.inl (Or.inl hq)
        · subst hc'
          rw [hc] at hm'
          cases hm'
          exact Or.inl (Or.inr rfl)
        · exact Or.inr ⟨c', hc', m', hm', rfl⟩

theorem mainModulePaths_mem (cmds : List Cmd) (q : String) :
    q ∈ mainModulePaths cmds ↔ ∃ c ∈ cmds, ∃ m, c.pkg.module = some m ∧ m.path = q := by
  rw [mainModulePaths, mainModulePaths_fold_mem]
  simp

/-- C9: the mixed-mode check passes when mixed mode is allowed or all
commands agree on module presence; with mixed mode disallowed, a
module-bearing command together with a module-less one makes the check
fail with an error naming the main-module paths (each offending main
module's path is in the error, and every named path is some command's main
module). -/
theorem claim_c9 (allow : Bool) (cmds : List Cmd) :
    ((allow = true ∨ (∀ c ∈ cmds, c.pkg.module ≠ none) ∨ (∀ c ∈ cmds, c.pkg.module = none)) →
      mixedModeCheck allow cmds = .ok ()) ∧
    (∀ c1 ∈ cmds, ∀ c2 ∈ cmds, ∀ m1, c1.pkg.module = some m1 → c2.pkg.module = none →
      allow = false →
      mixedModeCheck allow cmds = .error (.mixedMode (mainModulePaths cmds)) ∧
      m1.path ∈ mainModulePaths cmds ∧
      ∀ q ∈ mainModulePaths cmds, ∃ c ∈ cmds, ∃ m, c.pkg.module = some m ∧ m.path = q) := by
  constructor
  · rintro (h | h | h)
    · subst h
      simp [mixedModeCheck]
    · have hf : cmds.filter (fun c => c.pkg.module.isNone) = [] := by
        rw [List.filter_eq_nil_iff]
        intro c hc
        simp only [Option.isNone_iff_eq_none]
        exact fun hn => h c hc hn
      simp [mixedModeCheck, hf]
    · have hm : mainModulePaths cmds = [] := by
        rw [List.eq_nil_iff_forall_not_mem]
        intro q hq
        rw [mainModulePaths_mem] at hq
        obtain ⟨c, hc, m, hmod, _⟩ := hq
        rw [h c hc] at hmod
        cases hmod
      simp [mixedModeCheck, hm]
  · intro c1 h1 c2 h2 m1 hm1 hm2 hallow
    subst hallow
    have hmem : m1.path ∈ mainModulePaths cmds :=
      (mainModulePaths_mem _ _).2 ⟨c1, h1, m1, hm1, rfl⟩
    have hne : mainModulePaths cmds ≠ [] := by
      intro h
      rw [h] at hmem
      cases hmem
    have hnum : 0 < (cmds.filter (fun c => c.pkg.module.isNone)).length := by
      rw [List.length_pos]
      intro h
      have hin : c2 ∈ cmds.filter (fun c => c.pkg.module.isNone) := by
        rw [List.mem_filter]
        exact ⟨h2, by simp [hm2]⟩
      rw [h] at hin
      cases hin
    refine ⟨?_, hmem, fun q hq => (mainModulePaths_mem _ _).1 hq⟩
    simp [mixedModeCheck, hne, hnum]

/-- Witness for C9: one module-bearing and one module-less command with
mixed mode disallowed. -/
theorem claim_c9_witness :
    exCmdA.pkg.module = some exModMA ∧ exCmdNoMod.pkg.module = none ∧
    mixedModeCheck false [exCmdA, exCmdNoMod] =
      .error (.mixedMode (mainModulePaths [exCmdA, exCmdNoMod])) :=
  ⟨rfl, rfl,
    ((claim_c9 false [exCmdA, exCmdNoMod]).2 exCmdA (by simp) exCmdNoMod (by simp)
      exModMA rfl rfl rfl).1⟩

/-! ## Duplicate command check (C2) -/

theorem checkDup_ok_iff : ∀ (cs : List Cmd) (seen : List (String × String)),
    checkDup seen cs = .ok () ↔
      (List.Pairwise (fun a b => a.name ≠ b.name) cs ∧ ∀ c ∈ cs, alookup seen c.name = none)
  | [], seen => by simp [checkDup]
  | c :: cs, seen => by
    cases h : alookup seen c.name with
    | some p =>
      constructor
      · intro hh
        rw [checkDup, h] at hh
        cases hh
      · rintro ⟨_, hall⟩
        have hc := hall c (List.mem_cons_self c cs)
        rw [h] at hc
        cases hc
    | none =>
      rw [checkDup, h]
      rw [checkDup_ok_iff cs]
      constructor
      · rintro ⟨hpw, hall⟩
        constructor
        · rw [List.pairwise_cons]
          refine ⟨?_, hpw⟩
          intro b hb
          have hl := hall b hb
          by_cases hnb : c.name = b.name
          · rw [alookup, if_pos hnb] at hl
            cases hl
          · exact hnb
        · intro b hb
          rcases List.mem_cons.1 hb with rfl | hb'
          · exact h
          · have hl := hall b hb'
            by_cases hnb : c.name = b.name
            · rw [alookup, if_pos hnb] at hl
              cases hl
            · rw [alookup, if_neg hnb] at hl
              exact hl
      · rintro ⟨hpw, hall⟩
        rw [List.pairwise_cons] at hpw
        refine ⟨hpw.2, ?_⟩
        intro b hb
        rw [alookup, if_neg (hpw.1 b hb)]
        exact hall b (List.mem_cons_of_mem c hb)

theorem checkDup_err : ∀ (cs : List Cmd) (seen : List (String × String)) (e : BBErr),
    checkDup seen cs = .error e →
    ∃ n p1 p2, e = .duplicateCommand n p1 p2 ∧
      (DupPair cs n p1 p2 ∨
        (alookup seen n = some p1 ∧
          ∃ pre c2 post, cs = pre ++ c2 :: post ∧ c2.name = n ∧ c2.pkgPath = p2))
  | [], seen, e, h => by
    rw [checkDup] at h
    cases h
  | c :: cs, seen, e, h => by
    cases hl : alookup seen c.name with
    | some p =>
      rw [checkDup, hl] at h
      cases h
      exact ⟨c.name, p, c.pkgPath, rfl,
        Or.inr ⟨hl, [], c, cs, rfl, rfl, rfl⟩⟩
    | none =>
      rw [checkDup, hl] at h
      obtain ⟨n, p1, p2, he, hcase⟩ := checkDup_err cs _ e h
      refine ⟨n, p1, p2, he, ?_⟩
      rcases hcase with hdp | ⟨hlk, pre, c2, post, hcs, hn2, hp2⟩
      · obtain ⟨pre, mid, post, c1, c2, hcs, h1, h2, h3, h4⟩ := hdp
        exact Or.inl ⟨c :: pre, mid, post, c1, c2, by rw [hcs]; simp, h1, h2, h3, h4⟩
      · by_cases hcn : c.name = n
        · rw [alookup, if_pos hcn] at hlk
          cases hlk
          exact Or.inl ⟨[], pre, post, c, c2, by rw [hcs]; simp, hcn, hn2, rfl, hp2⟩
        · rw [alookup, if_neg hcn] at hlk
          exact Or.inr ⟨hlk, c :: pre, c2, post, by rw [hcs]; simp, hn2, hp2⟩

/-- C2: a command list containing two positionally distinct commands with
the same name makes the duplicate check fail with an error carrying that
name and both commands' package paths; a list with pairwise distinct names
passes the check. -/
theorem claim_c2 (cmds : List Cmd) :
    ((∃ n p1 p2, DupPair cmds n p1 p2) →
      ∃ n p1 p2, DupPair cmds n p1 p2 ∧
        checkDuplicate cmds = .error (.duplicateCommand n p1 p2)) ∧
    (List.Pairwise (fun a b => a.name ≠ b.name) cmds → checkDuplicate cmds = .ok ()) := by
  constructor
  · rintro ⟨n, p1, p2, pre, mid, post, c1, c2, hcms, h1n, h2n, h1p, h2p⟩
    have hnp : ¬ List.Pairwise (fun a b => a.name ≠ b.name) cmds := by
      intro hpw
      rw [hcms, List.pairwise_append] at hpw
      have h12 := hpw.2.2 c1 (by simp) c2 (by simp)
      rw [h1n, h2n] at h12
      exact h12 rfl
    cases hres : checkDuplicate cmds with
    | ok u =>
      cases u
      rw [checkDuplicate, checkDup_ok_iff] at hres
      exact absurd hres.1 hnp
    | error e =>
      obtain ⟨n', p1', p2', he, hcase⟩ := checkDup_err cmds [] e hres
      rcases hcase with hdp | ⟨hlk, _⟩
      · exact ⟨n', p1', p2', hdp, by rw [he]⟩
      · rw [alookup] at hlk
        cases hlk
  · intro hpw
    rw [checkDuplicate, checkDup_ok_iff]
    exact ⟨hpw, fun c _ => rfl⟩

/-- Witness for C2: two commands both named `ls` produce the duplicate
error; a single command passes. -/
theorem claim_c2_witness :
    (∃ n p1 p2, DupPair [exCmdLs1, exCmdLs2] n p1 p2 ∧
      checkDuplicate [exCmdLs1, exCmdLs2] = .error (.duplicateCommand n p1 p2)) ∧
    checkDuplicate [exCmdA] = .ok () :=
  ⟨(claim_c2 [exCmdLs1, exCmdLs2]).1
      ⟨"ls", "example.com/foo/ls", "example.com/bar/ls",
        [], [], [], exCmdLs1, exCmdLs2, rfl, rfl, rfl, rfl, rfl⟩,
    (claim_c2 [exCmdA]).2 (by simp)⟩

/-! ## BuildBusybox trace up to the duplicate error (C3) -/

/-- C3: when the loaded commands contain a duplicate name, `BuildBusybox`
returns the duplicate error and the effect trace up to that moment holds
only directory creations (the generated-source and bb directories) — no
file contents have been written. -/
theorem claim_c3 (inp : BuildInput) (cont : List Cmd → List FSEffect × Option BBErr)
    (cmds : List Cmd) (e : BBErr)
    (hopts : inp.optsGiven = true) (henv : inp.envValid = true)
    (hdir : (inp.genSrcDir = "" ∧ inp.generateOnly = false) ∨
      (inp.genSrcDir ≠ "" ∧ (inp.dirState = .missing ∨ inp.dirState = .empty)))
    (hload : inp.loadResult = .ok cmds) (hne : cmds ≠ [])
    (hdup : checkDuplicate cmds = .error e) :
    ∃ tr, BuildBusybox inp cont = (tr, some e) ∧
      ∀ eff ∈ tr, (∃ d, eff = FSEffect.mkdirAll d) ∨ eff = FSEffect.tempDirCreate := by
  have hstep : ∃ tr0, genSrcDirStep inp = .ok tr0 ∧
      ∀ eff ∈ tr0, (∃ d, eff = FSEffect.mkdirAll d) ∨ eff = FSEffect.tempDirCreate := by
    rcases hdir with ⟨h1, h2⟩ | ⟨h1, h2⟩
    · exact ⟨[.tempDirCreate], by simp [genSrcDirStep, h1, h2], by simp⟩
    · rcases h2 with h2 | h2
      · exact ⟨[.mkdirAll inp.genSrcDir], by simp [genSrcDirStep, h1, h2],
          by simp⟩
      · exact ⟨[], by simp [genSrcDirStep, h1, h2], by simp⟩
  obtain ⟨tr0, hs, htr0⟩ := hstep
  refine ⟨tr0 ++ [.mkdirAll "src/bb.u-root.com/bb"], ?_, ?_⟩
  · simp [BuildBusybox, hopts, henv, hs, hload, hne, hdup]
  · intro eff heff
    rcases List.mem_append.1 heff with h | h
    · exact htr0 eff h
    · rw [List.mem_singleton] at h
      subst h
      exact Or.inl ⟨_, rfl⟩

/-- Witness for C3 on a concrete duplicate command set. -/
theorem claim_c3_witness :
    checkDuplicate [exCmdLs1, exCmdLs2] =
      .error (.duplicateCommand "ls" "example.com/foo/ls" "example.com/bar/ls") ∧
    ∃ tr, BuildBusybox ⟨true, true, "", false, .empty, false, .ok [exCmdLs1, exCmdLs2]⟩
        (fun _ => ([], none)) =
        (tr, some (.duplicateCommand "ls" "example.com/foo/ls" "example.com/bar/ls")) ∧
      ∀ eff ∈ tr, (∃ d, eff = FSEffect.mkdirAll d) ∨ eff = FSEffect.tempDirCreate :=
  ⟨by decide,
    claim_c3 ⟨true, true, "", false, .empty, false, .ok [exCmdLs1, exCmdLs2]⟩
      (fun _ => ([], none)) [exCmdLs1, exCmdLs2] _ rfl rfl (Or.inl ⟨rfl, rfl⟩) rfl
      (by decide) (by decide)⟩

/-! ## The modfile model: membership and survival lemmas -/

theorem addRequire_not_mem : ∀ (rs : List (String × String)) (p v : String),
    (∀ r ∈ rs, r.1 ≠ p) → addRequire rs p v = rs ++ [(p, v)]
  | [], p, v, _ => rfl
  | r :: rs, p, v, h => by
    rw [addRequire, if_neg (h r (List.mem_cons_self r rs)),
      addRequire_not_mem rs p v (fun x hx => h x (List.mem_cons_of_mem r hx))]
    simp

theorem foldl_addReplace_state : ∀ (cs : List ModReplace) (st : ModFileState),
    cs.foldl (fun s r => { s with replaces := addReplace s.replaces r }) st =
      { st with replaces := cs.foldl addReplace st.replaces }
  | [], st => rfl
  | c :: cs, st => by
    simp only [List.foldl_cons]
    rw [foldl_addReplace_state cs]

theorem addModuleDirectives_requires (st : ModFileState) (p : String) (m : GoModule) :
    (addModuleDirectives st p m).requires = addRequire st.requires p (requireVersion m) := by
  rw [addModuleDirectives, foldl_addReplace_state]

theorem addModuleDirectives_replaces (st : ModFileState) (p : String) (m : GoModule) :
    (addModuleDirectives st p m).replaces =
      (copiedReplaces m).foldl addReplace
        (addReplace st.replaces ⟨p, "", localReplacePath p, ""⟩) := by
  rw [addModuleDirectives, foldl_addReplace_state]

theorem dealWithDeps_fold_requires : ∀ (L : List (String × GoModule)) (st : ModFileState),
    List.Pairwise (fun a b => a.1 ≠ b.1) L →
    (∀ r ∈ st.requires, ∀ pm ∈ L, r.1 ≠ pm.1) →
    (L.foldl (fun s q => addModuleDirectives s q.1 q.2) st).requires =
      st.requires ++ L.map (fun pm => (pm.1, requireVersion pm.2))
  | [], st, _, _ => by simp
  | (p, m) :: L, st, hpw, hst => by
    rw [List.pairwise_cons] at hpw
    have hreq : (addModuleDirectives st p m).requires =
        st.requires ++ [(p, requireVersion m)] := by
      rw [addModuleDirectives_requires]
      exact addRequire_not_mem st.requires p _
        (fun r hr => hst r hr (p, m) (List.mem_cons_self _ _))
    have hst2 : ∀ r ∈ (addModuleDirectives st p m).requires, ∀ pm ∈ L, r.1 ≠ pm.1 := by
      rw [hreq]
      intro r hr pm hpm
      rcases List.mem_append.1 hr with h | h
      · exact hst r h pm (List.mem_cons_of_mem _ hpm)
      · rw [List.mem_singleton] at h
        subst h
        exact hpw.1 pm hpm
    rw [List.foldl_cons, dealWithDeps_fold_requires L _ hpw.2 hst2, hreq]
    simp

theorem mem_updFirst_self : ∀ (rs : List ModReplace) (n : ModReplace),
    (∃ r ∈ rs, replMatch r n = true) → n ∈ updFirst rs n
  | [], n, h => by
    rcases h with ⟨r, hr, _⟩
    cases hr
  | r :: rs, n, h => by
    rw [updFirst]
    by_cases hm : replMatch r n = true
    · rw [if_pos hm]
      exact List.mem_cons_self _ _
    · rw [if_neg hm]
      have h2 : ∃ x ∈ rs, replMatch x n = true := by
        rcases h with ⟨x, hx, hxm⟩
        rcases List.mem_cons.1 hx with rfl | hx'
        · exact absurd hxm hm
        · exact ⟨x, hx', hxm⟩
      exact List.mem_cons_of_mem r (mem_updFirst_self rs n h2)

theorem mem_insertAfterSamePath_self : ∀ (rs : List ModReplace) (n : ModReplace),
    n ∈ insertAfterSamePath rs n
  | [], n => List.mem_singleton_self n
  | r :: rs, n => by
    rw [insertAfterSamePath]
    by_cases h1 : rs.any (fun x => x.oldPath == n.oldPath) = true
    · rw [if_pos h1]
      exact List.mem_cons_of_mem r (mem_insertAfterSamePath_self rs n)
    · rw [if_neg h1]
      by_cases h2 : (r.oldPath == n.oldPath) = true
      · rw [if_pos h2]
        exact List.mem_cons_of_mem r (List.mem_cons_self _ _)
      · rw [if_neg h2]
        exact List.mem_cons_of_mem r (mem_insertAfterSamePath_self rs n)

theorem mem_addReplace_self (rs : List ModReplace) (n : ModReplace) : n ∈ addReplace rs n := by
  rw [addReplace]
  by_cases h : rs.any (fun r => replMatch r n) = true
  · rw [if_pos h]
    exact mem_updFirst_self rs n (List.any_eq_true.1 h)
  · rw [if_neg h]
    exact mem_insertAfterSamePath_self rs n

theorem mem_updFirst_of_not_match : ∀ (rs : List ModReplace) (n x : ModReplace),
    x ∈ rs → replMatch x n = false → x ∈ updFirst rs n
  | [], _, x, hx, _ => absurd hx (List.not_mem_nil x)
  | r :: rs, n, x, hx, hxm => by
    rw [updFirst]
    by_cases hm : replMatch r n = true
    · rw [if_pos hm]
      rcases List.mem_cons.1 hx with rfl | hx'
      · rw [hxm] at hm
        cases hm
      · refine List.mem_cons_of_mem n ?_
        rw [List.mem_filter]
        exact ⟨hx', by simp [hxm]⟩
    · rw [if_neg hm]
      rcases List.mem_cons.1 hx with rfl | hx'
      · exact List.mem_cons_self _ _
      · exact List.mem_cons_of_mem r (mem_updFirst_of_not_match rs n x hx' hxm)

theorem mem_insertAfterSamePath_of_mem : ∀ (rs : List ModReplace) (n x : ModReplace),
    x ∈ rs → x ∈ insertAfterSamePath rs n
  | [], _, x, hx => absurd hx (List.not_mem_nil x)
  | r :: rs, n, x, hx => by
    rw [insertAfterSamePath]
    by_cases h1 : rs.any (fun y => y.oldPath == n.oldPath) = true
    · rw [if_pos h1]
      rcases List.mem_cons.1 hx with rfl | hx'
      · exact List.mem_cons_self _ _
      · exact List.mem_cons_of_mem r (mem_insertAfterSamePath_of_mem rs n x hx')
    · rw [if_neg h1]
      by_cases h2 : (r.oldPath == n.oldPath) = true
      · rw [if_pos h2]
        rcases List.mem_cons.1 hx with rfl | hx'
        · exact List.mem_cons_self _ _
        · exact List.mem_cons_of_mem r (List.mem_cons_of_mem n hx')
      · rw [if_neg h2]
        rcases List.mem_cons.1 hx with rfl | hx'
        · exact List.mem_cons_self _ _
        · exact List.mem_cons_of_mem r (mem_insertAfterSamePath_of_mem rs n x hx')

theorem mem_addReplace_of_not_match (rs : List ModReplace) (n x : ModReplace)
    (hx : x ∈ rs) (hxm : replMatch x n = false) : x ∈ addReplace rs n := by
  rw [addReplace]
  by_cases h : rs.any (fun r => replMatch r n) = true
  · rw [if_pos h]
    exact mem_updFirst_of_not_match rs n x hx hxm
  · rw [if_neg h]
    exact mem_insertAfterSamePath_of_mem rs n x hx

theorem mem_addReplace_of_ne (rs : List ModReplace) (n x : ModReplace)
    (hx : x ∈ rs) (hne : x.oldPath ≠ n.oldPath) : x ∈ addReplace rs n := by
  refine mem_addReplace_of_not_match rs n x hx ?_
  simp [replMatch, hne]

theorem mem_foldl_addReplace_of_ne : ∀ (cs rs : List ModReplace) (x : ModReplace),
    x ∈ rs → (∀ r ∈ cs, x.oldPath ≠ r.oldPath) → x ∈ cs.foldl addReplace rs
  | [], _, _, hx, _ => hx
  | c :: cs, rs, x, hx, h => by
    rw [List.foldl_cons]
    exact mem_foldl_addReplace_of_ne cs _ x
      (mem_addReplace_of_ne rs c x hx (h c (List.mem_cons_self _ _)))
      (fun r hr => h r (List.mem_cons_of_mem _ hr))

theorem copiedReplaces_mem_iff (m : GoModule) (r : ModReplace) :
    r ∈ copiedReplaces m ↔
      m.goMod ≠ "" ∧ r ∈ m.gomodReplaces ∧ isLocalReplacePath r.newPath = false := by
  rw [copiedReplaces]
  by_cases hg : m.goMod = ""
  · simp [if_pos hg, hg]
  · rw [if_neg hg, List.mem_filter]
    simp [hg]

theorem mem_fold_modules_replaces_of_ne :
    ∀ (L : List (String × GoModule)) (st : ModFileState) (x : ModReplace),
    x ∈ st.replaces →
    (∀ qm ∈ L, x.oldPath ≠ qm.1 ∧ ∀ r ∈ copiedReplaces qm.2, x.oldPath ≠ r.oldPath) →
    x ∈ (L.foldl (fun s q => addModuleDirectives s q.1 q.2) st).replaces
  | [], _, _, hx, _ => hx
  | (p, m) :: L, st, x, hx, h => by
    rw [List.foldl_cons]
    refine mem_fold_modules_replaces_of_ne L _ x ?_
      (fun qm hqm => h qm (List.mem_cons_of_mem _ hqm))
    rw [addModuleDirectives_replaces]
    have h0 := h (p, m) (List.mem_cons_self _ _)
    exact mem_foldl_addReplace_of_ne _ _ x
      (mem_addReplace_of_ne st.replaces _ x hx h0.1) h0.2

theorem locRep_mem_dealWithDeps_fold :
    ∀ (L : List (String × GoModule)) (st : ModFileState) (p : String) (m : GoModule),
    (p, m) ∈ L →
    List.Pairwise (fun a b => a.1 ≠ b.1) L →
    (∀ qm ∈ L, ∀ r ∈ copiedReplaces qm.2, ∀ um ∈ L, r.oldPath ≠ um.1) →
    (⟨p, "", localReplacePath p, ""⟩ : ModReplace) ∈
      (L.foldl (fun s q => addModuleDirectives s q.1 q.2) st).replaces
  | [], _, _, _, hmem, _, _ => absurd hmem (List.not_mem_nil _)
  | (q, mq) :: L, st, p, m, hmem, hpw, hnc => by
    rw [List.foldl_cons]
    rw [List.pairwise_cons] at hpw
    rcases List.mem_cons.1 hmem with heq | hmem'
    · injection heq with h1 h2
      subst h1
      subst h2
      refine mem_fold_modules_replaces_of_ne L _ _ ?_ ?_
      · rw [addModuleDirectives_replaces]
        refine mem_foldl_addReplace_of_ne _ _ _ (mem_addReplace_self _ _) ?_
        intro r hr
        exact Ne.symm (hnc (p, m) (List.mem_cons_self _ _) r hr
          (p, m) (List.mem_cons_self _ _))
      · intro qm hqm
        refine ⟨Ne.symm ?_, ?_⟩
        · exact fun hq => hpw.1 qm hqm hq.symm
        · intro r hr
          exact Ne.symm (hnc qm (List.mem_cons_of_mem _ hqm) r hr
            (p, m) (List.mem_cons_self _ _))
    · exact locRep_mem_dealWithDeps_fold L _ p m hmem' hpw.2
        (fun qm hqm r hr um hum =>
          hnc qm (List.mem_cons_of_mem _ hqm) r hr um (List.mem_cons_of_mem _ hum))

/-! ## Determinism / ordering of the synthetic manifest (C1) -/

/-- C1 counterexample: the same module map presented in two iteration
orders (a permutation) produces two different synthetic manifests, so the
emission is not sorted by path and the output is not independent of map
iteration order. -/
theorem claim_c1_counterexample :
    ([("a.example.com/a", exModA), ("b.example.com/b", exModB)]).Perm
      [("b.example.com/b", exModB), ("a.example.com/a", exModA)] ∧
    dealWithDepsGoMod [("a.example.com/a", exModA), ("b.example.com/b", exModB)] ≠
      dealWithDepsGoMod [("b.example.com/b", exModB), ("a.example.com/a", exModA)] :=
  ⟨by decide, by decide⟩

/-- C1 (amended): the emission in `dealWithDeps` is not sorted — for
modules with pairwise distinct paths the `require` lines of the synthetic
manifest appear exactly in the iteration order of the module map, so the
output is a deterministic function of that order (byte-stable only for a
fixed iteration order). -/
theorem claim_c1_amended (L : List (String × GoModule))
    (hpw : List.Pairwise (fun a b => a.1 ≠ b.1) L) :
    (dealWithDepsGoMod L).requires = L.map (fun pm => (pm.1, requireVersion pm.2)) := by
  rw [dealWithDepsGoMod,
    dealWithDeps_fold_requires L _ hpw (fun r hr => absurd hr (List.not_mem_nil r))]
  simp

/-- Witness for C1 (amended) at a concrete two-module map. -/
theorem claim_c1_witness :
    List.Pairwise (fun a b => a.1 ≠ b.1)
      [("a.example.com/a", exModA), ("b.example.com/b", exModB)] ∧
    (dealWithDepsGoMod [("a.example.com/a", exModA), ("b.example.com/b", exModB)]).requires =
      [("a.example.com/a", exModA), ("b.example.com/b", exModB)].map
        (fun pm => (pm.1, requireVersion pm.2)) :=
  ⟨by simp, claim_c1_amended [("a.example.com/a", exModA), ("b.example.com/b", exModB)]
    (by simp)⟩

/-! ## Require and local-replace content of the synthetic manifest (C6) -/

/-- C6 counterexample: for a module whose path ends in the major-version
suffix `/v2` and whose version is unknown, the emission still falls back to
the placeholder `v0.0.0` — the fallback is not disallowed for such paths. -/
theorem claim_c6_counterexample :
    exModV2.version = "" ∧ goEndsWith "example.com/m/v2" "/v2" = true ∧
    ("example.com/m/v2", "v0.0.0") ∈
      (dealWithDepsGoMod [("example.com/m/v2", exModV2)]).requires :=
  ⟨rfl, by decide, by decide⟩

/-- C6 (amended): for every local module (distinct paths, and no copied —
i.e. non-local-RHS — replace directive targeting a local module path; a
manifest's own local replaces are unconstrained, as they are never copied)
the synthetic manifest contains `require p v` — with `v` the module's
version, or `v0.0.0` exactly when the version is empty, regardless of any
major-version suffix of the path — and the local directive
`replace p => ../../p`. -/
theorem claim_c6_amended (L : List (String × GoModule))
    (hpw : List.Pairwise (fun a b => a.1 ≠ b.1) L)
    (hnc : ∀ qm ∈ L, ∀ r ∈ qm.2.gomodReplaces, isLocalReplacePath r.newPath = false →
      ∀ um ∈ L, r.oldPath ≠ um.1) :
    ∀ pm ∈ L,
      (pm.1, requireVersion pm.2) ∈ (dealWithDepsGoMod L).requires ∧
      (⟨pm.1, "", localReplacePath pm.1, ""⟩ : ModReplace) ∈
        (dealWithDepsGoMod L).replaces := by
  intro pm hpm
  constructor
  · rw [dealWithDepsGoMod,
      dealWithDeps_fold_requires L _ hpw (fun r hr => absurd hr (List.not_mem_nil r))]
    simpa using List.mem_map_of_mem (fun qm => (qm.1, requireVersion qm.2)) hpm
  · obtain ⟨p, m⟩ := pm
    refine locRep_mem_dealWithDeps_fold L _ p m hpm hpw ?_
    intro qm hqm r hr um hum
    have hr' := (copiedReplaces_mem_iff qm.2 r).1 hr
    exact hnc qm hqm r hr'.2.1 hr'.2.2 um hum

/-- Witness for C6 (amended) at a concrete two-module map in the mainline
local-replace configuration: the main module's manifest locally replaces
`example.com/m2` (a local-RHS directive targeting a local module path),
and the locally replaced module still gets its `require … v0.0.0` and its
`../../` replace. -/
theorem claim_c6_witness :
    (⟨"example.com/m2", "", "./vendor/m2", ""⟩ : ModReplace) ∈ exModALoc.gomodReplaces ∧
    ("example.com/m2", "v0.0.0") ∈
      (dealWithDepsGoMod
        [("example.com/a", exModALoc), ("example.com/m2", exM2x)]).requires ∧
    (⟨"example.com/m2", "", localReplacePath "example.com/m2", ""⟩ : ModReplace) ∈
      (dealWithDepsGoMod
        [("example.com/a", exModALoc), ("example.com/m2", exM2x)]).replaces := by
  have h := claim_c6_amended [("example.com/a", exModALoc), ("example.com/m2", exM2x)]
    (by simp)
    (by
      intro qm hqm r hr hnl um hum
      rcases List.mem_cons.1 hqm with rfl | hqm'
      · simp [exModALoc] at hr
        subst hr
        exact absurd hnl (by decide)
      · rcases List.mem_singleton.1 hqm' with rfl
        simp [exM2x] at hr)
    ("example.com/m2", exM2x) (by simp)
  exact ⟨by decide, by simpa [requireVersion, exM2x] using h.1, h.2⟩

/-! ## Copied replaces of the synthetic manifest (C7) -/

theorem mem_updFirst_cases : ∀ (rs : List ModReplace) (n x : ModReplace),
    x ∈ updFirst rs n → x ∈ rs ∨ x = n
  | [], _, x, hx => absurd hx (List.not_mem_nil x)
  | r :: rs, n, x, hx => by
    rw [updFirst] at hx
    by_cases hm : replMatch r n = true
    · rw [if_pos hm] at hx
      rcases List.mem_cons.1 hx with rfl | hx'
      · exact Or.inr rfl
      · exact Or.inl (List.mem_cons_of_mem r (List.mem_filter.1 hx').1)
    · rw [if_neg hm] at hx
      rcases List.mem_cons.1 hx with rfl | hx'
      · exact Or.inl (List.mem_cons_self _ _)
      · rcases mem_updFirst_cases rs n x hx' with h | h
        · exact Or.inl (List.mem_cons_of_mem r h)
        · exact Or.inr h

theorem mem_insertAfterSamePath_cases : ∀ (rs : List ModReplace) (n x : ModReplace),
    x ∈ insertAfterSamePath rs n → x ∈ rs ∨ x = n
  | [], n, x, hx => by
    rw [insertAfterSamePath] at hx
    rcases List.mem_singleton.1 hx with rfl
    exact Or.inr rfl
  | r :: rs, n, x, hx => by
    rw [insertAfterSamePath] at hx
    by_cases h1 : rs.any (fun y => y.oldPath == n.oldPath) = true
    · rw [if_pos h1] at hx
      rcases List.mem_cons.1 hx with rfl | hx'
      · exact Or.inl (List.mem_cons_self _ _)
      · rcases mem_insertAfterSamePath_cases rs n x hx' with h | h
        · exact Or.inl (List.mem_cons_of_mem r h)
        · exact Or.inr h
    · rw [if_neg h1] at hx
      by_cases h2 : (r.oldPath == n.oldPath) = true
      · rw [if_pos h2] at hx
        rcases List.mem_cons.1 hx with rfl | hx'
        · exact Or.inl (List.mem_cons_self _ _)
        · rcases List.mem_cons.1 hx' with rfl | hx''
          · exact Or.inr rfl
          · exact Or.inl (List.mem_cons_of_mem r hx'')
      · rw [if_neg h2] at hx
        rcases List.mem_cons.1 hx with rfl | hx'
        · exact Or.inl (List.mem_cons_self _ _)
        · rcases mem_insertAfterSamePath_cases rs n x hx' with h | h
          · exact Or.inl (List.mem_cons_of_mem r h)
          · exact Or.inr h

theorem mem_addReplace_cases (rs : List ModReplace) (n x : ModReplace)
    (hx : x ∈ addReplace rs n) : x ∈ rs ∨ x = n := by
  rw [addReplace] at hx
  by_cases h : rs.any (fun r => replMatch r n) = true
  · rw [if_pos h] at hx
    exact mem_updFirst_cases rs n x hx
  · rw [if_neg h] at hx
    exact mem_insertAfterSamePath_cases rs n x hx

theorem mem_foldl_addReplace_cases : ∀ (cs rs : List ModReplace) (x : ModReplace),
    x ∈ cs.foldl addReplace rs → x ∈ rs ∨ x ∈ cs
  | [], _, _, hx => Or.inl hx
  | c :: cs, rs, x, hx => by
    rw [List.foldl_cons] at hx
    rcases mem_foldl_addReplace_cases cs _ x hx with h | h
    · rcases mem_addReplace_cases rs c x h with h' | h'
      · exact Or.inl h'
      · exact Or.inr (h' ▸ List.mem_cons_self c cs)
    · exact Or.inr (List.mem_cons_of_mem c h)

theorem mem_fold_modules_cases :
    ∀ (L : List (String × GoModule)) (st : ModFileState) (x : ModReplace),
    x ∈ (L.foldl (fun s q => addModuleDirectives s q.1 q.2) st).replaces →
    x ∈ st.replaces ∨
      ∃ qm ∈ L, x = ⟨qm.1, "", localReplacePath qm.1, ""⟩ ∨ x ∈ copiedReplaces qm.2
  | [], _, _, hx => Or.inl hx
  | (p, m) :: L, st, x, hx => by
    rw [List.foldl_cons] at hx
    rcases mem_fold_modules_cases L _ x hx with h | h
    · rw [addModuleDirectives_replaces] at h
      rcases mem_foldl_addReplace_cases _ _ x h with h' | h'
      · rcases mem_addReplace_cases _ _ x h' with h'' | h''
        · exact Or.inl h''
        · exact Or.inr ⟨(p, m), List.mem_cons_self _ _, Or.inl h''⟩
      · exact Or.inr ⟨(p, m), List.mem_cons_self _ _, Or.inr h'⟩
    · obtain ⟨qm, hqm, hcase⟩ := h
      exact Or.inr ⟨qm, List.mem_cons_of_mem _ hqm, hcase⟩

theorem replMatch_oldPath {r n : ModReplace} (h : replMatch r n = true) :
    r.oldPath = n.oldPath := by
  rw [replMatch, Bool.and_eq_true] at h
  exact beq_iff_eq.1 h.1

theorem addReplace_oldPath_surv (rs : List ModReplace) (n x : ModReplace)
    (hx : x ∈ rs) : ∃ y ∈ addReplace rs n, y.oldPath = x.oldPath := by
  by_cases hm : replMatch x n = true
  · exact ⟨n, mem_addReplace_self rs n, (replMatch_oldPath hm).symm⟩
  · exact ⟨x, mem_addReplace_of_not_match rs n x hx (Bool.not_eq_true _ ▸ hm), rfl⟩

theorem foldl_addReplace_oldPath_surv : ∀ (cs rs : List ModReplace) (t : String),
    (∃ y ∈ rs, y.oldPath = t) → ∃ y ∈ cs.foldl addReplace rs, y.oldPath = t
  | [], _, _, h => h
  | c :: cs, rs, t, h => by
    rw [List.foldl_cons]
    refine foldl_addReplace_oldPath_surv cs _ t ?_
    obtain ⟨y, hy, hyp⟩ := h
    obtain ⟨z, hz, hzp⟩ := addReplace_oldPath_surv rs c y hy
    exact ⟨z, hz, by rw [hzp, hyp]⟩

theorem foldl_addReplace_added_surv : ∀ (cs rs : List ModReplace) (r : ModReplace),
    r ∈ cs → ∃ y ∈ cs.foldl addReplace rs, y.oldPath = r.oldPath
  | [], _, r, hr => absurd hr (List.not_mem_nil r)
  | c :: cs, rs, r, hr => by
    rw [List.foldl_cons]
    rcases List.mem_cons.1 hr with rfl | hr'
    · exact foldl_addReplace_oldPath_surv cs _ r.oldPath
        ⟨r, mem_addReplace_self rs r, rfl⟩
    · exact foldl_addReplace_added_surv cs _ r hr'

theorem fold_modules_oldPath_surv :
    ∀ (L : List (String × GoModule)) (st : ModFileState) (t : String),
    (∃ y ∈ st.replaces, y.oldPath = t) →
    ∃ y ∈ (L.foldl (fun s q => addModuleDirectives s q.1 q.2) st).replaces, y.oldPath = t
  | [], _, _, h => h
  | (p, m) :: L, st, t, h => by
    rw [List.foldl_cons]
    refine fold_modules_oldPath_surv L _ t ?_
    rw [addModuleDirectives_replaces]
    refine foldl_addReplace_oldPath_surv _ _ t ?_
    obtain ⟨y, hy, hyp⟩ := h
    obtain ⟨z, hz, hzp⟩ := addReplace_oldPath_surv st.replaces _ y hy
    exact ⟨z, hz, by rw [hzp, hyp]⟩

theorem copied_oldPath_surv :
    ∀ (L : List (String × GoModule)) (st : ModFileState) (pm : String × GoModule)
      (r : ModReplace), pm ∈ L → r ∈ copiedReplaces pm.2 →
    ∃ y ∈ (L.foldl (fun s q => addModuleDirectives s q.1 q.2) st).replaces,
      y.oldPath = r.oldPath
  | [], _, pm, r, hpm, _ => absurd hpm (List.not_mem_nil pm)
  | (p, m) :: L, st, pm, r, hpm, hr => by
    rw [List.foldl_cons]
    rcases List.mem_cons.1 hpm with rfl | hpm'
    · refine fold_modules_oldPath_surv L _ r.oldPath ?_
      rw [addModuleDirectives_replaces]
      exact foldl_addReplace_added_surv _ _ r hr
    · exact copied_oldPath_surv L _ pm r hpm' hr

theorem replMatch_of_empty_oldVers {n : ModReplace} (h : n.oldVers = "") (r : ModReplace) :
    replMatch r n = (r.oldPath == n.oldPath) := by
  simp [replMatch, h]

theorem insertAfterSamePath_no_same : ∀ (rs : List ModReplace) (n : ModReplace),
    (∀ r ∈ rs, (r.oldPath == n.oldPath) = false) → insertAfterSamePath rs n = rs ++ [n]
  | [], _, _ => rfl
  | r :: rs, n, h => by
    rw [insertAfterSamePath]
    have h1 : rs.any (fun y => y.oldPath == n.oldPath) = false := by
      rw [List.any_eq_false]
      intro y hy
      simp [h y (List.mem_cons_of_mem r hy)]
    rw [if_neg (by simp [h1]), if_neg (by simp [h r (List.mem_cons_self r rs)]),
      insertAfterSamePath_no_same rs n (fun y hy => h y (List.mem_cons_of_mem r hy))]
    simp

theorem updFirst_filter_eq (n : ModReplace) (h : n.oldVers = "") :
    ∀ rs : List ModReplace, (∃ r ∈ rs, replMatch r n = true) →
    (updFirst rs n).filter (fun r => r.oldPath == n.oldPath) = [n]
  | [], hex => by
    rcases hex with ⟨r, hr, _⟩
    cases hr
  | r :: rs, hex => by
    rw [updFirst]
    by_cases hm : replMatch r n = true
    · rw [if_pos hm]
      rw [List.filter_cons_of_pos (by rw [← replMatch_of_empty_oldVers h]; simp [replMatch, h])]
      have hnil : (rs.filter (fun x => !replMatch x n)).filter
          (fun r => r.oldPath == n.oldPath) = [] := by
        rw [List.filter_filter, List.filter_eq_nil_iff]
        intro a ha
        rw [replMatch_of_empty_oldVers h a]
        cases hsp : a.oldPath == n.oldPath <;> simp [hsp]
      rw [hnil]
    · rw [if_neg hm]
      have hsp : (r.oldPath == n.oldPath) = false := by
        rw [← replMatch_of_empty_oldVers h r]
        exact Bool.not_eq_true _ ▸ hm
      rw [List.filter_cons_of_neg (by simp [hsp])]
      refine updFirst_filter_eq n h rs ?_
      rcases hex with ⟨x, hx, hxm⟩
      rcases List.mem_cons.1 hx with rfl | hx'
      · exact absurd hxm hm
      · exact ⟨x, hx', hxm⟩

theorem addReplace_filter_last (rs : List ModReplace) (n : ModReplace)
    (h : n.oldVers = "") :
    (addReplace rs n).filter (fun r => r.oldPath == n.oldPath) = [n] := by
  rw [addReplace]
  by_cases hany : rs.any (fun r => replMatch r n) = true
  · rw [if_pos hany]
    exact updFirst_filter_eq n h rs (List.any_eq_true.1 hany)
  · rw [if_neg hany]
    have hnone : ∀ r ∈ rs, (r.oldPath == n.oldPath) = false := by
      intro r hr
      rw [← replMatch_of_empty_oldVers h r]
      rw [Bool.not_eq_true, List.any_eq_false] at hany
      simpa using hany r hr
    rw [insertAfterSamePath_no_same rs n hnone, List.filter_append,
      List.filter_eq_nil_iff.2 (fun a ha => by simp [hnone a ha])]
    simp

/-- C7 counterexample: two modules whose manifests both (non-locally)
replace `x.example.com/x`; the synthetic manifest keeps only the later
writer's directive — the first writer's is overwritten, not kept (and the
emission has no warning path). -/
theorem claim_c7_counterexample :
    (⟨"x.example.com/x", "", "a.mirror.com/a", "v1.0.0"⟩ : ModReplace) ∈
      exModC.gomodReplaces ∧
    (⟨"x.example.com/x", "", "b.mirror.com/b", "v2.0.0"⟩ : ModReplace) ∈
      exModD.gomodReplaces ∧
    (⟨"x.example.com/x", "", "b.mirror.com/b", "v2.0.0"⟩ : ModReplace) ∈
      (dealWithDepsGoMod [("c.example.com/c", exModC), ("d.example.com/d", exModD)]).replaces ∧
    (⟨"x.example.com/x", "", "a.mirror.com/a", "v1.0.0"⟩ : ModReplace) ∉
      (dealWithDepsGoMod [("c.example.com/c", exModC), ("d.example.com/d", exModD)]).replaces :=
  ⟨by decide, by decide, by decide, by decide⟩

/-- C7 (amended): every replace of the synthetic manifest is either a
local `../../` rule for one of the modules or a non-local replace copied
from some module's manifest (local-RHS replaces are never copied); for
every copied non-local replace some directive for its replaced path is
present; and `AddReplace` on an empty old version overwrites — after the
call the only line for the path is the directive just written, so the last
writer wins and nothing warns. -/
theorem claim_c7_amended (L : List (String × GoModule)) :
    (∀ x ∈ (dealWithDepsGoMod L).replaces,
      (∃ pm ∈ L, x = ⟨pm.1, "", localReplacePath pm.1, ""⟩) ∨
      (∃ pm ∈ L, pm.2.goMod ≠ "" ∧ x ∈ pm.2.gomodReplaces ∧
        isLocalReplacePath x.newPath = false)) ∧
    (∀ pm ∈ L, pm.2.goMod ≠ "" → ∀ r ∈ pm.2.gomodReplaces,
      isLocalReplacePath r.newPath = false →
      ∃ y ∈ (dealWithDepsGoMod L).replaces, y.oldPath = r.oldPath) ∧
    (∀ (rs : List ModReplace) (n : ModReplace), n.oldVers = "" →
      (addReplace rs n).filter (fun r => r.oldPath == n.oldPath) = [n]) := by
  refine ⟨?_, ?_, fun rs n h => addReplace_filter_last rs n h⟩
  · intro x hx
    rw [dealWithDepsGoMod] at hx
    rcases mem_fold_modules_cases L _ x hx with h | ⟨qm, hqm, hcase⟩
    · exact absurd h (List.not_mem_nil x)
    · rcases hcase with h | h
      · exact Or.inl ⟨qm, hqm, h⟩
      · exact Or.inr ⟨qm, hqm, (copiedReplaces_mem_iff qm.2 x).1 h⟩
  · intro pm hpm hg r hr hloc
    rw [dealWithDepsGoMod]
    exact copied_oldPath_surv L _ pm r hpm
      ((copiedReplaces_mem_iff pm.2 r).2 ⟨hg, hr, hloc⟩)

/-- Witness for C7 (amended): a concrete conflicting `AddReplace` leaves
exactly the later directive for the path. -/
theorem claim_c7_witness :
    (⟨"x.example.com/x", "", "b.mirror.com/b", "v2.0.0"⟩ : ModReplace).oldVers = "" ∧
    (addReplace [⟨"x.example.com/x", "", "a.mirror.com/a", "v1.0.0"⟩]
        (⟨"x.example.com/x", "", "b.mirror.com/b", "v2.0.0"⟩ : ModReplace)).filter
      (fun r => r.oldPath ==
        (⟨"x.example.com/x", "", "b.mirror.com/b", "v2.0.0"⟩ : ModReplace).oldPath) =
      [⟨"x.example.com/x", "", "b.mirror.com/b", "v2.0.0"⟩] :=
  ⟨rfl, (claim_c7_amended []).2.2 _ _ rfl⟩

/-! ## localModules conflict analysis (C8) -/

theorem alookup_mem {α : Type} : ∀ (l : List (String × α)) (k : String) (v : α),
    alookup l k = some v → (k, v) ∈ l
  | [], _, _, h => by cases h
  | (k0, v0) :: rest, k, v, h => by
    rw [alookup] at h
    by_cases hk : k0 = k
    · rw [if_pos hk] at h
      injection h with h
      subst hk
      subst h
      exact List.mem_cons_self _ _
    · rw [if_neg hk] at h
      exact List.mem_cons_of_mem _ (alookup_mem rest k v h)

theorem mem_upsert_cases {α : Type} : ∀ (l : List (String × α)) (k : String) (v : α)
    (x : String × α), x ∈ upsert l k v → x ∈ l ∨ x = (k, v)
  | [], k, v, x, hx => by
    rw [upsert] at hx
    rcases List.mem_singleton.1 hx with rfl
    exact Or.inr rfl
  | (k0, v0) :: rest, k, v, x, hx => by
    rw [upsert] at hx
    by_cases hk : k0 = k
    · rw [if_pos hk] at hx
      rcases List.mem_cons.1 hx with rfl | hx'
      · exact Or.inr rfl
      · exact Or.inl (List.mem_cons_of_mem _ hx')
    · rw [if_neg hk] at hx
      rcases List.mem_cons.1 hx with rfl | hx'
      · exact Or.inl (List.mem_cons_self _ _)
      · rcases mem_upsert_cases rest k v x hx' with h | h
        · exact Or.inl (List.mem_cons_of_mem _ h)
        · exact Or.inr h

theorem packageModules_cons (q : GoPackage) (l : List GoPackage) :
    packageModules (q :: l) = (match q.module with
      | some m => m :: packageModules l
      | none => packageModules l) := rfl

theorem mem_packageModules_of : ∀ (l : List GoPackage) (q : GoPackage) (m : GoModule),
    q ∈ l → q.module = some m → m ∈ packageModules l
  | [], q, _, hq, _ => absurd hq (List.not_mem_nil q)
  | q0 :: l, q, m, hq, hm => by
    rw [packageModules_cons]
    rcases List.mem_cons.1 hq with rfl | hq'
    · rw [hm]
      exact List.mem_cons_self m _
    · cases hq0 : q0.module with
      | none => exact mem_packageModules_of l q m hq' hm
      | some m0 => exact List.mem_cons_of_mem m0 (mem_packageModules_of l q m hq' hm)

theorem allInputModules_cons (p : Cmd) (ps : List Cmd) :
    allInputModules (p :: ps) =
      (match p.pkg.module with | some m => [m] | none => []) ++
        packageModules p.visitOrder ++ allInputModules ps := rfl

theorem mainModule_mem_allInputModules : ∀ (mainPkgs : List Cmd) (p : Cmd) (m : GoModule),
    p ∈ mainPkgs → p.pkg.module = some m → m ∈ allInputModules mainPkgs
  | [], p, _, hp, _ => absurd hp (List.not_mem_nil p)
  | p0 :: ps, p, m, hp, hm => by
    rw [allInputModules_cons]
    rcases List.mem_cons.1 hp with rfl | hp'
    · rw [hm]
      simp
    · exact List.mem_append_right _ (mainModule_mem_allInputModules ps p m hp' hm)

theorem visited_mem_allInputModules :
    ∀ (mainPkgs : List Cmd) (p : Cmd) (q : GoPackage) (m : GoModule),
    p ∈ mainPkgs → q ∈ p.visitOrder → q.module = some m → m ∈ allInputModules mainPkgs
  | [], p, _, _, hp, _, _ => absurd hp (List.not_mem_nil p)
  | p0 :: ps, p, q, m, hp, hq, hm => by
    rw [allInputModules_cons]
    rcases List.mem_cons.1 hp with rfl | hp'
    · exact List.mem_append_left _
        (List.mem_append_right _ (mem_packageModules_of p.visitOrder q m hq hm))
    · exact List.mem_append_right _ (visited_mem_allInputModules ps p q m hp' hq hm)

theorem lrmStep_cases (acc : List (String × GoModule)) (q : GoPackage)
    (y : String × GoModule) :
    y ∈ (match q.module with
      | some pm =>
        match pm.replacePath with
        | some rp => if isLocalReplacePath rp then upsert acc pm.path pm else acc
        | none => acc
      | none => acc) →
    y ∈ acc ∨ (y.1 = y.2.path ∧ q.module = some y.2) := by
  cases hqm : q.module with
  | none => exact fun hy => Or.inl hy
  | some pm =>
    show (y ∈ match pm.replacePath with
      | some rp => if isLocalReplacePath rp then upsert acc pm.path pm else acc
      | none => acc) → _
    cases hrp : pm.replacePath with
    | none => exact fun hy => Or.inl hy
    | some rp =>
      show (y ∈ if isLocalReplacePath rp then upsert acc pm.path pm else acc) → _
      by_cases hl : isLocalReplacePath rp = true
      · rw [if_pos hl]
        intro hy
        rcases mem_upsert_cases acc pm.path pm y hy with h | h
        · exact Or.inl h
        · subst h
          exact Or.inr ⟨rfl, rfl⟩
      · rw [if_neg hl]
        exact fun hy => Or.inl hy

theorem lrm_fold_spec : ∀ (l : List GoPackage) (acc : List (String × GoModule))
    (x : String × GoModule),
    x ∈ l.foldl (fun m pkg =>
      match pkg.module with
      | some pm =>
        match pm.replacePath with
        | some rp => if isLocalReplacePath rp then upsert m pm.path pm else m
        | none => m
      | none => m) acc →
    x ∈ acc ∨ (x.1 = x.2.path ∧ ∃ q ∈ l, q.module = some x.2)
  | [], _, x, hx => Or.inl hx
  | q :: l, acc, x, hx => by
    rw [List.foldl_cons] at hx
    rcases lrm_fold_spec l _ x hx with h | ⟨h1, q', hq', h2⟩
    · rcases lrmStep_cases acc q x h with h' | ⟨h1, h2⟩
      · exact Or.inl h'
      · exact Or.inr ⟨h1, q, List.mem_cons_self _ _, h2⟩
    · exact Or.inr ⟨h1, q', List.mem_cons_of_mem _ hq', h2⟩

theorem locallyReplacedModules_spec (p : Cmd) :
    ∀ x ∈ locallyReplacedModules p,
      x.1 = x.2.path ∧ ∃ q ∈ p.visitOrder, q.module = some x.2 := by
  intro x hx
  rw [locallyReplacedModules] at hx
  revert hx
  cases hm : p.pkg.module with
  | none =>
    intro hx
    cases hx
  | some m0 =>
    intro hx
    rcases lrm_fold_spec p.visitOrder [] x hx with h | h
    · cases h
    · exact h

theorem ftm_fold_inv (mainPkgs : List Cmd) : ∀ (l : List Cmd)
    (acc : List (String × LocalModEntry)),
    (∀ c ∈ l, c ∈ mainPkgs) →
    (∀ kv ∈ acc, kv.1 = kv.2.m.path ∧ kv.2.m ∈ allInputModules mainPkgs) →
    ∀ kv ∈ l.foldl (fun lm p =>
      match p.pkg.module with
      | some m =>
        if (alookup lm m.path).isSome then lm
        else lm ++ [(m.path, ⟨m, .request m.path m.dir⟩)]
      | none => lm) acc,
    kv.1 = kv.2.m.path ∧ kv.2.m ∈ allInputModules mainPkgs
  | [], _, _, hacc, kv, hkv => hacc kv hkv
  | p :: l, acc, hl, hacc, kv, hkv => by
    rw [List.foldl_cons] at hkv
    refine ftm_fold_inv mainPkgs l _ (fun c hc => hl c (List.mem_cons_of_mem _ hc)) ?_ kv hkv
    intro kv' hkv'
    revert hkv'
    cases hm : p.pkg.module with
    | none => exact fun h => hacc kv' h
    | some m =>
      show kv' ∈ (if (alookup acc m.path).isSome then acc
        else acc ++ [(m.path, ⟨m, .request m.path m.dir⟩)]) → _
      by_cases hlk : (alookup acc m.path).isSome = true
      · rw [if_pos hlk]
        exact fun h => hacc kv' h
      · rw [if_neg hlk]
        intro h
        rcases List.mem_append.1 h with h' | h'
        · exact hacc kv' h'
        · rw [List.mem_singleton] at h'
          subst h'
          exact ⟨rfl, mainModule_mem_allInputModules mainPkgs p m
            (hl p (List.mem_cons_self _ _)) hm⟩

theorem findTopLevelModules_inv (mainPkgs : List Cmd) :
    ∀ kv ∈ findTopLevelModules mainPkgs,
      kv.1 = kv.2.m.path ∧ kv.2.m ∈ allInputModules mainPkgs := by
  intro kv hkv
  rw [findTopLevelModules] at hkv
  exact ftm_fold_inv mainPkgs mainPkgs [] (fun c hc => hc)
    (fun kv' hkv' => absurd hkv' (List.not_mem_nil kv')) kv hkv

theorem mergeReplacedModules_error : ∀ (rl : List (String × GoModule)) (pmp pgm : String)
    (lm : List (String × LocalModEntry)) (e : BBErr),
    mergeReplacedModules pmp pgm lm rl = .error e →
    ∃ mp o1, e = .conflictingVersions mp o1 pmp
  | [], pmp, pgm, lm, e, h => by
    rw [mergeReplacedModules] at h
    cases h
  | (modPath, module) :: rest, pmp, pgm, lm, e, h => by
    rw [mergeReplacedModules] at h
    revert h
    cases hlk : alookup lm modPath with
    | some original =>
      show (if original.m.dir ≠ module.dir then
          (.error (.conflictingVersions modPath original.provenance pmp) :
            Except BBErr (List (String × LocalModEntry)))
        else mergeReplacedModules pmp pgm lm rest) = .error e → _
      by_cases hd : original.m.dir ≠ module.dir
      · rw [if_pos hd]
        intro h
        injection h with h
        exact ⟨modPath, original.provenance, h.symm⟩
      · rw [if_neg hd]
        exact fun h => mergeReplacedModules_error rest pmp pgm lm e h
    | none => exact fun h => mergeReplacedModules_error rest pmp pgm _ e h

theorem mergeReplacedModules_ok (mainPkgs : List Cmd) (hdc : DirConsistent mainPkgs)
    (p : Cmd) (hp : p ∈ mainPkgs) (pmp pgm : String) :
    ∀ (rl : List (String × GoModule)) (lm : List (String × LocalModEntry)),
    (∀ kv ∈ lm, kv.1 = kv.2.m.path ∧ kv.2.m ∈ allInputModules mainPkgs) →
    (∀ kv ∈ rl, kv.1 = kv.2.path ∧ ∃ q ∈ p.visitOrder, q.module = some kv.2) →
    ∃ lm2, mergeReplacedModules pmp pgm lm rl = .ok lm2 ∧
      ∀ kv ∈ lm2, kv.1 = kv.2.m.path ∧ kv.2.m ∈ allInputModules mainPkgs
  | [], lm, hlm, _ => ⟨lm, rfl, hlm⟩
  | (modPath, module) :: rest, lm, hlm, hrl => by
    have hhead := hrl (modPath, module) (List.mem_cons_self _ _)
    have hmodmem : module ∈ allInputModules mainPkgs := by
      obtain ⟨q, hq, hqm⟩ := hhead.2
      exact visited_mem_allInputModules mainPkgs p q module hp hq hqm
    cases hlk : alookup lm modPath with
    | some original =>
      have hd : original.m.dir = module.dir := by
        have hmem := alookup_mem lm modPath original hlk
        have hinv := hlm (modPath, original) hmem
        exact hdc original.m module hinv.2 hmodmem (by rw [← hinv.1, hhead.1])
      have heq : mergeReplacedModules pmp pgm lm ((modPath, module) :: rest) =
          mergeReplacedModules pmp pgm lm rest := by
        rw [mergeReplacedModules, hlk]
        show (if original.m.dir ≠ module.dir then _ else _) = _
        rw [if_neg (fun hne => hne hd)]
      rw [heq]
      exact mergeReplacedModules_ok mainPkgs hdc p hp pmp pgm rest lm hlm
        (fun kv hkv => hrl kv (List.mem_cons_of_mem _ hkv))
    | none =>
      have heq : mergeReplacedModules pmp pgm lm ((modPath, module) :: rest) =
          mergeReplacedModules pmp pgm
            (lm ++ [(modPath, ⟨module, .fromGoMod pmp pgm⟩)]) rest := by
        rw [mergeReplacedModules, hlk]
      rw [heq]
      refine mergeReplacedModules_ok mainPkgs hdc p hp pmp pgm rest _ ?_
        (fun kv hkv => hrl kv (List.mem_cons_of_mem _ hkv))
      intro kv hkv
      rcases List.mem_append.1 hkv with h | h
      · exact hlm kv h
      · rw [List.mem_singleton] at h
        subst h
        exact ⟨hhead.1, hmodmem⟩

theorem collectReplacedModules_error : ∀ (l : List Cmd)
    (lm : List (String × LocalModEntry)) (e : BBErr),
    collectReplacedModules lm l = .error e →
    ∃ mp o1 o2, e = .conflictingVersions mp o1 o2
  | [], lm, e, h => by
    rw [collectReplacedModules] at h
    cases h
  | p :: ps, lm, e, h => by
    rw [collectReplacedModules] at h
    revert h
    cases hm : p.pkg.module with
    | none => exact fun h => collectReplacedModules_error ps lm e h
    | some pm =>
      show (match mergeReplacedModules pm.path pm.goMod lm (locallyReplacedModules p) with
        | .error e' => (.error e' : Except BBErr (List (String × LocalModEntry)))
        | .ok lm2 => collectReplacedModules lm2 ps) = .error e → _
      cases hmr : mergeReplacedModules pm.path pm.goMod lm (locallyReplacedModules p) with
      | error e' =>
        intro h
        injection h with h
        subst h
        obtain ⟨mp, o1, he⟩ := mergeReplacedModules_error _ _ _ _ _ hmr
        exact ⟨mp, o1, pm.path, he⟩
      | ok lm2 => exact fun h => collectReplacedModules_error ps lm2 e h

theorem collectReplacedModules_ok (mainPkgs : List Cmd) (hdc : DirConsistent mainPkgs) :
    ∀ (l : List Cmd) (lm : List (String × LocalModEntry)),
    (∀ c ∈ l, c ∈ mainPkgs) →
    (∀ kv ∈ lm, kv.1 = kv.2.m.path ∧ kv.2.m ∈ allInputModules mainPkgs) →
    ∃ lm2, collectReplacedModules lm l = .ok lm2 ∧
      ∀ kv ∈ lm2, kv.1 = kv.2.m.path ∧ kv.2.m ∈ allInputModules mainPkgs
  | [], lm, _, hlm => ⟨lm, rfl, hlm⟩
  | p :: ps, lm, hl, hlm => by
    have hp : p ∈ mainPkgs := hl p (List.mem_cons_self _ _)
    cases hm : p.pkg.module with
    | none =>
      have heq : collectReplacedModules lm (p :: ps) = collectReplacedModules lm ps := by
        rw [collectReplacedModules, hm]
      rw [heq]
      exact collectReplacedModules_ok mainPkgs hdc ps lm
        (fun c hc => hl c (List.mem_cons_of_mem _ hc)) hlm
    | some pm =>
      obtain ⟨lm2, hmr, hlm2⟩ := mergeReplacedModules_ok mainPkgs hdc p hp pm.path pm.goMod
        (locallyReplacedModules p) lm hlm (locallyReplacedModules_spec p)
      have heq : collectReplacedModules lm (p :: ps) = collectReplacedModules lm2 ps := by
        rw [collectReplacedModules, hm]
        show (match mergeReplacedModules pm.path pm.goMod lm (locallyReplacedModules p) with
          | .error e' => (.error e' : Except BBErr (List (String × LocalModEntry)))
          | .ok lm2 => collectReplacedModules lm2 ps) = _
        rw [hmr]
      rw [heq]
      exact collectReplacedModules_ok mainPkgs hdc ps lm2
        (fun c hc => hl c (List.mem_cons_of_mem _ hc)) hlm2

theorem frlc_inner_id (rel : String → String → String)
    (lm : List (String × LocalModEntry)) (mainPkgs : List Cmd)
    (hdc : DirConsistent mainPkgs)
    (hinv : ∀ kv ∈ lm, kv.1 = kv.2.m.path ∧ kv.2.m ∈ allInputModules mainPkgs)
    (mp : Cmd) (hmp : mp ∈ mainPkgs) :
    ∀ (pl : List GoPackage), (∀ q ∈ pl, q ∈ mp.visitOrder) →
    ∀ (acc : List LogEntry × Bool),
    pl.foldl (fun acc2 p =>
      match p.module with
      | none => acc2
      | some pm =>
        match alookup lm pm.path with
        | some l =>
          if l.m.dir ≠ pm.dir then
            (acc2.1 ++
              [.conflictHeader pm.path,
               .moduleUse (mainModulePath mp) (moduleIdentifier pm),
               .provenanceUse l.provenance (moduleIdentifier l.m),
               .suggestion pm.path (rel (mainModuleDir mp) l.m.dir)
                 (mainModuleGoMod mp)],
             true)
          else acc2
        | none => acc2) acc = acc
  | [], _, _ => rfl
  | q :: pl, hq, acc => by
    rw [List.foldl_cons]
    have hstep : (match q.module with
        | none => acc
        | some pm =>
          match alookup lm pm.path with
          | some l =>
            if l.m.dir ≠ pm.dir then
              (acc.1 ++
                [.conflictHeader pm.path,
                 .moduleUse (mainModulePath mp) (moduleIdentifier pm),
                 .provenanceUse l.provenance (moduleIdentifier l.m),
                 .suggestion pm.path (rel (mainModuleDir mp) l.m.dir)
                   (mainModuleGoMod mp)],
               true)
            else acc
          | none => acc) = acc := by
      cases hqm : q.module with
      | none => rfl
      | some pm =>
        show (match alookup lm pm.path with
          | some l =>
            if l.m.dir ≠ pm.dir then
              (acc.1 ++
                [.conflictHeader pm.path,
                 .moduleUse (mainModulePath mp) (moduleIdentifier pm),
                 .provenanceUse l.provenance (moduleIdentifier l.m),
                 .suggestion pm.path (rel (mainModuleDir mp) l.m.dir)
                   (mainModuleGoMod mp)],
               true)
            else acc
          | none => acc) = acc
        cases hlk : alookup lm pm.path with
        | none => rfl
        | some le =>
          show (if le.m.dir ≠ pm.dir then _ else acc) = acc
          have hd : le.m.dir = pm.dir := by
            have hmem := alookup_mem lm pm.path le hlk
            have hi := hinv (pm.path, le) hmem
            exact hdc le.m pm hi.2
              (visited_mem_allInputModules mainPkgs mp q pm hmp
                (hq q (List.mem_cons_self _ _)) hqm)
              hi.1.symm
          rw [if_neg (fun hne => hne hd)]
    rw [hstep]
    exact frlc_inner_id rel lm mainPkgs hdc hinv mp hmp pl
      (fun q' hq' => hq q' (List.mem_cons_of_mem _ hq')) acc

theorem frlc_no_conflict (rel : String → String → String)
    (lm : List (String × LocalModEntry)) (mainPkgs : List Cmd)
    (hdc : DirConsistent mainPkgs)
    (hinv : ∀ kv ∈ lm, kv.1 = kv.2.m.path ∧ kv.2.m ∈ allInputModules mainPkgs) :
    ∀ (pl : List Cmd), (∀ c ∈ pl, c ∈ mainPkgs) →
    ∀ (acc : List LogEntry × Bool),
    pl.foldl (fun acc mainPkg =>
      mainPkg.visitOrder.foldl (fun acc2 p =>
        match p.module with
        | none => acc2
        | some pm =>
          match alookup lm pm.path with
          | some l =>
            if l.m.dir ≠ pm.dir then
              (acc2.1 ++
                [.conflictHeader pm.path,
                 .moduleUse (mainModulePath mainPkg) (moduleIdentifier pm),
                 .provenanceUse l.provenance (moduleIdentifier l.m),
                 .suggestion pm.path (rel (mainModuleDir mainPkg) l.m.dir)
                   (mainModuleGoMod mainPkg)],
               true)
            else acc2
          | none => acc2) acc) acc = acc
  | [], _, _ => rfl
  | c :: pl, hc, acc => by
    rw [List.foldl_cons]
    rw [frlc_inner_id rel lm mainPkgs hdc hinv c (hc c (List.mem_cons_self _ _))
      c.visitOrder (fun q hq => hq) acc]
    exact frlc_no_conflict rel lm mainPkgs hdc hinv pl
      (fun c' hc' => hc c' (List.mem_cons_of_mem _ hc')) acc

theorem findRemoteLocalConflicts_no_conflict (rel : String → String → String)
    (lm : List (String × LocalModEntry)) (mainPkgs : List Cmd)
    (hdc : DirConsistent mainPkgs)
    (hinv : ∀ kv ∈ lm, kv.1 = kv.2.m.path ∧ kv.2.m ∈ allInputModules mainPkgs) :
    findRemoteLocalConflicts rel lm mainPkgs = ([], false) := by
  rw [findRemoteLocalConflicts]
  exact frlc_no_conflict rel lm mainPkgs hdc hinv mainPkgs (fun c hc => hc) ([], false)

theorem frlc_step_characterize (rel : String → String → String)
    (lm : List (String × LocalModEntry)) (mp : Cmd)
    (acc : List LogEntry × Bool) (q : GoPackage) (res : List LogEntry × Bool) :
    (match q.module with
      | none => acc
      | some pm =>
        match alookup lm pm.path with
        | some l =>
          if l.m.dir ≠ pm.dir then
            (acc.1 ++
              [.conflictHeader pm.path,
               .moduleUse (mainModulePath mp) (moduleIdentifier pm),
               .provenanceUse l.provenance (moduleIdentifier l.m),
               .suggestion pm.path (rel (mainModuleDir mp) l.m.dir)
                 (mainModuleGoMod mp)],
             true)
          else acc
        | none => acc) = res →
    res = acc ∨ (res.2 = true ∧ ∃ a b c, LogEntry.suggestion a b c ∈ res.1) := by
  cases hqm : q.module with
  | none => exact fun h => Or.inl h.symm
  | some pm =>
    show (match alookup lm pm.path with
      | some l =>
        if l.m.dir ≠ pm.dir then
          (acc.1 ++
            [.conflictHeader pm.path,
             .moduleUse (mainModulePath mp) (moduleIdentifier pm),
             .provenanceUse l.provenance (moduleIdentifier l.m),
             .suggestion pm.path (rel (mainModuleDir mp) l.m.dir)
               (mainModuleGoMod mp)],
           true)
        else acc
      | none => acc : List LogEntry × Bool) = res → _
    cases hlk : alookup lm pm.path with
    | none => exact fun h => Or.inl h.symm
    | some le =>
      show (if le.m.dir ≠ pm.dir then
          (acc.1 ++
            [.conflictHeader pm.path,
             .moduleUse (mainModulePath mp) (moduleIdentifier pm),
             .provenanceUse le.provenance (moduleIdentifier le.m),
             .suggestion pm.path (rel (mainModuleDir mp) le.m.dir)
               (mainModuleGoMod mp)],
           true)
        else acc : List LogEntry × Bool) = res → _
      by_cases hd : le.m.dir ≠ pm.dir
      · rw [if_pos hd]
        intro h
        right
        rw [← h]
        exact ⟨rfl, pm.path, rel (mainModuleDir mp) le.m.dir, mainModuleGoMod mp, by simp⟩
      · rw [if_neg hd]
        exact fun h => Or.inl h.symm

theorem frlc_step_sugg (rel : String → String → String)
    (lm : List (String × LocalModEntry)) (mp : Cmd)
    (acc : List LogEntry × Bool) (q : GoPackage)
    (hacc : acc.2 = true → ∃ a b c, LogEntry.suggestion a b c ∈ acc.1) :
    ((match q.module with
      | none => acc
      | some pm =>
        match alookup lm pm.path with
        | some l =>
          if l.m.dir ≠ pm.dir then
            (acc.1 ++
              [.conflictHeader pm.path,
               .moduleUse (mainModulePath mp) (moduleIdentifier pm),
               .provenanceUse l.provenance (moduleIdentifier l.m),
               .suggestion pm.path (rel (mainModuleDir mp) l.m.dir)
                 (mainModuleGoMod mp)],
             true)
          else acc
        | none => acc) : List LogEntry × Bool).2 = true →
    ∃ a b c, LogEntry.suggestion a b c ∈
      ((match q.module with
        | none => acc
        | some pm =>
          match alookup lm pm.path with
          | some l =>
            if l.m.dir ≠ pm.dir then
              (acc.1 ++
                [.conflictHeader pm.path,
                 .moduleUse (mainModulePath mp) (moduleIdentifier pm),
                 .provenanceUse l.provenance (moduleIdentifier l.m),
                 .suggestion pm.path (rel (mainModuleDir mp) l.m.dir)
                   (mainModuleGoMod mp)],
               true)
            else acc
          | none => acc) : List LogEntry × Bool).1 := by
  rcases frlc_step_characterize rel lm mp acc q _ rfl with h | ⟨h2, a, b, c, hm⟩
  · rw [h]
    exact hacc
  · exact fun _ => ⟨a, b, c, hm⟩

theorem frlc_inner_sugg (rel : String → String → String)
    (lm : List (String × LocalModEntry)) (mp : Cmd) :
    ∀ (pl : List GoPackage) (acc : List LogEntry × Bool),
    (acc.2 = true → ∃ a b c, LogEntry.suggestion a b c ∈ acc.1) →
    ((pl.foldl (fun acc2 p =>
      match p.module with
      | none => acc2
      | some pm =>
        match alookup lm pm.path with
        | some l =>
          if l.m.dir ≠ pm.dir then
            (acc2.1 ++
              [.conflictHeader pm.path,
               .moduleUse (mainModulePath mp) (moduleIdentifier pm),
               .provenanceUse l.provenance (moduleIdentifier l.m),
               .suggestion pm.path (rel (mainModuleDir mp) l.m.dir)
                 (mainModuleGoMod mp)],
             true)
          else acc2
        | none => acc2) acc).2 = true →
      ∃ a b c, LogEntry.suggestion a b c ∈ (pl.foldl (fun acc2 p =>
        match p.module with
        | none => acc2
        | some pm =>
          match alookup lm pm.path with
          | some l =>
            if l.m.dir ≠ pm.dir then
              (acc2.1 ++
                [.conflictHeader pm.path,
                 .moduleUse (mainModulePath mp) (moduleIdentifier pm),
                 .provenanceUse l.provenance (moduleIdentifier l.m),
                 .suggestion pm.path (rel (mainModuleDir mp) l.m.dir)
                   (mainModuleGoMod mp)],
               true)
            else acc2
          | none => acc2) acc).1)
  | [], acc, hacc => hacc
  | q :: pl, acc, hacc => by
    rw [List.foldl_cons]
    exact frlc_inner_sugg rel lm mp pl _ (frlc_step_sugg rel lm mp acc q hacc)

theorem frlc_outer_sugg (rel : String → String → String)
    (lm : List (String × LocalModEntry)) :
    ∀ (pl : List Cmd) (acc : List LogEntry × Bool),
    (acc.2 = true → ∃ a b c, LogEntry.suggestion a b c ∈ acc.1) →
    ((pl.foldl (fun acc mainPkg =>
      mainPkg.visitOrder.foldl (fun acc2 p =>
        match p.module with
        | none => acc2
        | some pm =>
          match alookup lm pm.path with
          | some l =>
            if l.m.dir ≠ pm.dir then
              (acc2.1 ++
                [.conflictHeader pm.path,
                 .moduleUse (mainModulePath mainPkg) (moduleIdentifier pm),
                 .provenanceUse l.provenance (moduleIdentifier l.m),
                 .suggestion pm.path (rel (mainModuleDir mainPkg) l.m.dir)
                   (mainModuleGoMod mainPkg)],
               true)
            else acc2
          | none => acc2) acc) acc).2 = true →
      ∃ a b c, LogEntry.suggestion a b c ∈ (pl.foldl (fun acc mainPkg =>
        mainPkg.visitOrder.foldl (fun acc2 p =>
          match p.module with
          | none => acc2
          | some pm =>
            match alookup lm pm.path with
            | some l =>
              if l.m.dir ≠ pm.dir then
                (acc2.1 ++
                  [.conflictHeader pm.path,
                   .moduleUse (mainModulePath mainPkg) (moduleIdentifier pm),
                   .provenanceUse l.provenance (moduleIdentifier l.m),
                   .suggestion pm.path (rel (mainModuleDir mainPkg) l.m.dir)
                     (mainModuleGoMod mainPkg)],
                 true)
              else acc2
            | none => acc2) acc) acc).1)
  | [], acc, hacc => hacc
  | c :: pl, acc, hacc => by
    rw [List.foldl_cons]
    exact frlc_outer_sugg rel lm pl _ (frlc_inner_sugg rel lm c c.visitOrder acc hacc)

theorem findRemoteLocalConflicts_sugg (rel : String → String → String)
    (lm : List (String × LocalModEntry)) (mainPkgs : List Cmd) :
    (findRemoteLocalConflicts rel lm mainPkgs).2 = true →
    ∃ a b c, LogEntry.suggestion a b c ∈ (findRemoteLocalConflicts rel lm mainPkgs).1 := by
  rw [findRemoteLocalConflicts]
  exact frlc_outer_sugg rel lm mainPkgs ([], false) (fun h => by cases h)

/-- C8 counterexample: two commands whose manifests locally replace
`example.com/m2` with different on-disk roots; `localModules` fails with
the `two conflicting versions of module` error naming the path and both
origins — but the diagnostic log is empty: no `add replace` suggestion is
emitted for this conflict (the suggestion exists only on the
remote-vs-local path). -/
theorem claim_c8_counterexample :
    localModules exRel [exCmdA, exCmdB] =
      ([], .error (.conflictingVersions "example.com/m2"
        (.fromGoMod "example.com/a" "/work/a/go.mod") "example.com/b")) :=
  by decide

/-- C8 (amended): with all same-path module records agreeing on their
on-disk root, `localModules` raises no conflict error (and logs nothing);
every conflict error is either `two conflicting versions of module <path>`
— carrying the path and both origins, with an empty diagnostic log, i.e.
no suggestion — or the remote-vs-local `conflicting module dependencies
found`, whose diagnostic log does contain an `add replace <path> =>
<relative-dir> to <go.mod>` suggestion. -/
theorem claim_c8_amended (rel : String → String → String) (mainPkgs : List Cmd) :
    (DirConsistent mainPkgs → ∃ mods, localModules rel mainPkgs = ([], .ok mods)) ∧
    (∀ log e, localModules rel mainPkgs = (log, .error e) →
      (∃ mp o1 o2, e = .conflictingVersions mp o1 o2 ∧ log = []) ∨
      (e = .conflictingModuleDeps ∧
        ∃ mp rd gm, LogEntry.suggestion mp rd gm ∈ log)) := by
  constructor
  · intro hdc
    obtain ⟨lm2, hcrm, hinv2⟩ := collectReplacedModules_ok mainPkgs hdc mainPkgs
      (findTopLevelModules mainPkgs) (fun c hc => hc) (findTopLevelModules_inv mainPkgs)
    refine ⟨lm2.map (fun kv => (kv.1, kv.2.m)), ?_⟩
    have hfr := findRemoteLocalConflicts_no_conflict rel lm2 mainPkgs hdc hinv2
    simp only [localModules, hcrm, hfr]
    simp
  · intro log e hle
    cases hcrm : collectReplacedModules (findTopLevelModules mainPkgs) mainPkgs with
    | error e' =>
      have heq : localModules rel mainPkgs = ([], .error e') := by
        simp only [localModules, hcrm]
      rw [heq] at hle
      injection hle with h1 h2
      injection h2 with h2
      obtain ⟨mp, o1, o2, he⟩ := collectReplacedModules_error mainPkgs _ e' hcrm
      exact Or.inl ⟨mp, o1, o2, by rw [← h2, he], h1.symm⟩
    | ok lm2 =>
      by_cases hscan : (findRemoteLocalConflicts rel lm2 mainPkgs).2 = true
      · have heq : localModules rel mainPkgs =
            ((findRemoteLocalConflicts rel lm2 mainPkgs).1,
              .error .conflictingModuleDeps) := by
          simp only [localModules, hcrm, hscan]
          simp
        rw [heq] at hle
        injection hle with h1 h2
        injection h2 with h2
        obtain ⟨a, b, c, hm⟩ := findRemoteLocalConflicts_sugg rel lm2 mainPkgs hscan
        refine Or.inr ⟨h2.symm, a, b, c, ?_⟩
        rw [← h1]
        exact hm
      · have heq : localModules rel mainPkgs =
            ((findRemoteLocalConflicts rel lm2 mainPkgs).1,
              .ok (lm2.map (fun kv => (kv.1, kv.2.m)))) := by
          simp only [localModules, hcrm, hscan]
          simp
        rw [heq] at hle
        injection hle with _ h2
        cases h2

/-- Witness for C8 (amended): a single consistent command yields no
conflict error. -/
theorem claim_c8_witness :
    DirConsistent [exCmdA] ∧ ∃ mods, localModules exRel [exCmdA] = ([], .ok mods) := by
  have hdc : DirConsistent [exCmdA] := by
    intro m1 m2 h1 h2 hp
    have hall : ∀ x ∈ allInputModules [exCmdA], ∀ y ∈ allInputModules [exCmdA],
        x.path = y.path → x.dir = y.dir := by decide
    exact hall m1 h1 m2 h2 hp
  exact ⟨hdc, (claim_c8_amended exRel [exCmdA]).1 hdc⟩
